import Mathlib

/-
Shallow embedding of the Listing state controller (src/Listing.ts of
wyxos/listing) and proofs about its specification claims.

Modelling conventions:
- JavaScript scalar filter values (string | number) are the inductive PVal;
  JS numbers are modelled as integers (no floating point is exercised by
  the claims).
- JS objects used as string-keyed records are association lists
  (List (String × _)); key lookup finds the first matching entry and JS
  object updates replace the value of the existing entry in place, which
  matches JS records whose keys are unique.
- null and undefined are both modelled as Option.none wherever the code
  treats them identically (it does in every place the claims touch).
- Asynchronous transport calls are modelled by passing the settled outcome
  of the injected axios call as an explicit argument; a thrown JS error is
  the thrown component of the result.
-/

/-- Scalar value of a filter parameter: a JS string or a JS number. -/
inductive PVal where
  | str (s : String)
  | num (n : Int)
deriving DecidableEq, Repr

/-- Value of a field of a listing item. Non-scalar fields (objects, arrays)
never compare strictly equal to a scalar id, so they are collapsed into one
constructor. -/
inductive IVal where
  | pv (v : PVal)
  | nonscalar
deriving DecidableEq, Repr

/-- A listing item: a JS record from field names to field values. -/
abbrev Item := List (String × IVal)

/-- Server-reported active-filter summary entry. -/
structure ActiveFilter where
  key : String
  label : String
  rawValue : String
  value : String
deriving DecidableEq, Repr

/-- A primitive value inside a router query: string, number or null. -/
inductive QBase where
  | str (s : String)
  | num (n : Int)
  | jnull
deriving DecidableEq, Repr

/-- A router query value: a primitive or an array of primitives (Vue Router
can return arrays for repeated query parameters). -/
inductive QVal where
  | base (b : QBase)
  | arr (xs : List QBase)
deriving DecidableEq, Repr

/-- Legacy filter attribute (type FilterValue in types.ts): either a plain
scalar / null / undefined, or a ref-like cell carrying a mutable value. -/
inductive FilterValue where
  | scalar (v : Option PVal)
  | cell (v : Option PVal)
deriving DecidableEq, Repr

/-- Lookup in a JS record modelled as an association list: the first entry
with the given key. -/
def lookupAssoc {A : Type} : List (String × A) → String → Option A
  | [], _ => none
  | (k', v) :: rest, k => if k' = k then some v else lookupAssoc rest k

/-- Update the value of an existing key of a JS record, leaving the record
unchanged when the key is absent (callers guard on presence). -/
def assocSet {A : Type} : List (String × A) → String → A → List (String × A)
  | [], _, _ => []
  | (k', w) :: rest, k, v => if k' = k then (k', v) :: rest else (k', w) :: assocSet rest k v

/-- JS record assignment: update the key when present, append the new
entry when absent (insertion order of JS objects). -/
def objSet {A : Type} (m : List (String × A)) (k : String) (v : A) : List (String × A) :=
  match lookupAssoc m k with
  | none => m ++ [(k, v)]
  | some _ => assocSet m k v

/-- Model of the JS String.prototype.trim used by buildFilterParameters:
drop whitespace characters from both ends. Defined over the character list
so that it evaluates by kernel reduction. -/
def jsTrim (s : String) : String :=
  String.mk (((s.data.dropWhile Char.isWhitespace).reverse.dropWhile Char.isWhitespace).reverse)

/-- Keys of a JS record, in insertion order. -/
def assocKeys {A : Type} (m : List (String × A)) : List String :=
  m.map Prod.fst

/-- Digit character of a decimal digit. -/
def digitChar10 (d : Nat) : Char := Char.ofNat (48 + d)

/-- Little-endian decimal digits, written with structural fuel so that
values compute by kernel reduction (Nat.digits does not). -/
def natDigitsAux : Nat → Nat → List Nat
  | _, 0 => []
  | 0, _ => []
  | fuel + 1, n => n % 10 :: natDigitsAux fuel (n / 10)

/-- Little-endian decimal digits of a natural number. -/
def natDigits10 (n : Nat) : List Nat := natDigitsAux n n

/-- Decimal representation of a natural number as JS String() produces it. -/
def natToChars (n : Nat) : List Char :=
  if n = 0 then ['0'] else ((natDigits10 n).map digitChar10).reverse

/-- Decimal representation of an integer as JS String() produces it. -/
def intToChars (n : Int) : List Char :=
  if n < 0 then '-' :: natToChars n.natAbs else natToChars n.toNat

/-- JS String() conversion of a scalar filter value. -/
def jsString (v : PVal) : String :=
  match v with
  | .str s => s
  | .num n => String.mk (intToChars n)

/-- Numeric value of a decimal digit character. -/
def digitVal (c : Char) : Option Nat :=
  if c.isDigit then some (c.toNat - 48) else none

/-- Parse a non-empty all-digit character list as a natural number. -/
def parseNatDigits (l : List Char) : Option Nat :=
  if l = [] then none
  else (l.mapM digitVal).map (fun ds => Nat.ofDigits 10 ds.reverse)

/-- Model of JS Number() applied to a query-parameter string, restricted to
integral decimal literals: an optional sign followed by digits. Number
yields 0 on the empty string; every non-integral string is treated as NaN
(result none). Fractional and exponent literals are outside the model
because filter numbers are modelled as integers. -/
def jsToNumber (s : String) : Option Int :=
  match s.data with
  | [] => some 0
  | c :: rest =>
    if c = '-' then (parseNatDigits rest).map (fun m => -(m : Int))
    else if c = '+' then (parseNatDigits rest).map (fun m => (m : Int))
    else (parseNatDigits (c :: rest)).map (fun m => (m : Int))

/-- Opportunistic numeric coercion performed by normalizeParams on each
query-string value: a value parsing as a number becomes that number,
anything else stays a string. -/
def numCoerceStr (s : String) : PVal :=
  match jsToNumber s with
  | some n => .num n
  | none => .str s

/-- The whole mutable state of one Listing instance, together with its
per-instance configuration. The injected axios transport is modelled by the
flag axiosConfigured plus explicit outcome arguments to get and delete; the
injected router is modelled by hasRouter plus the current route query. -/
structure ListingState where
  data : List Item
  isLoading : Bool
  isUpdating : Bool
  isFiltering : Bool
  isResetting : Bool
  removingFilterKey : Option String
  error : Option String
  hasLoadedOnce : Bool
  currentPage : Int
  perPage : Int
  total : Int
  filterValues : List (String × PVal)
  activeFilters : List ActiveFilter
  apiPath : Option String
  hasRouter : Bool
  routerQuery : List (String × QVal)
  filterAttributes : List (String × FilterValue)
  filterDefaults : List (String × Option PVal)
  filterVisibility : List (String × Bool)
  panelOpen : Bool
  hasQueryBuilder : Bool
  errorHandler : Option (Option String → Option Int → Option String)
  axiosConfigured : Bool
  filters : List (String × Option PVal)

/-- Field values of a freshly constructed Listing. -/
def initialState : ListingState where
  data := []
  isLoading := false
  isUpdating := false
  isFiltering := false
  isResetting := false
  removingFilterKey := none
  error := none
  hasLoadedOnce := false
  currentPage := 1
  perPage := 15
  total := 0
  filterValues := []
  activeFilters := []
  apiPath := none
  hasRouter := false
  routerQuery := []
  filterAttributes := []
  filterDefaults := []
  filterVisibility := []
  panelOpen := false
  hasQueryBuilder := false
  errorHandler := none
  axiosConfigured := false
  filters := []

namespace Listing

/-- Extraction of the scalar behind a legacy filter attribute: a ref-like
cell contributes its inner value, a plain scalar contributes itself
(buildFilterParameters, lines 335-344). -/
def extractFilterValue : FilterValue → Option PVal
  | .scalar v => v
  | .cell v => v

/-- The source mapping buildFilterParameters iterates over: the canonical
filters map when it is non-empty, otherwise the legacy filterAttributes
with each attribute unwrapped to its scalar (line 330). -/
def filterSource (st : ListingState) : List (String × Option PVal) :=
  if st.filters ≠ [] then st.filters
  else st.filterAttributes.map (fun kv => (kv.1, extractFilterValue kv.2))

/-- Per-value filtering of buildFilterParameters (lines 346-365): null and
undefined are skipped, the empty string is skipped, the exact string all is
skipped, strings are trimmed and skipped when the trim is empty, surviving
strings are stored trimmed, numbers are stored verbatim. -/
def cleanValue (v : Option PVal) : Option PVal :=
  match v with
  | none => none
  | some (.num n) => some (.num n)
  | some (.str s) =>
    if s = "" then none
    else if s = "all" then none
    else if jsTrim s = "" then none
    else some (.str (jsTrim s))

/-- Model of Listing.buildFilterParameters (lines 325-369). -/
def buildFilterParameters (st : ListingState) : List (String × PVal) :=
  (filterSource st).filterMap (fun kv => (cleanValue kv.2).map (fun w => (kv.1, w)))

end Listing

/-- Optional payload data carried by a rejected axios error. -/
structure ErrData where
  message : Option String
deriving DecidableEq, Repr

/-- Optional response object carried by a rejected axios error. -/
structure ErrResponse where
  status : Option Int
  data : Option ErrData
deriving DecidableEq, Repr

/-- A rejected transport error as the catch blocks inspect it. -/
structure AxiosErr where
  response : Option ErrResponse
deriving DecidableEq, Repr

/-- The listing portion of a successful GET response body. -/
structure ListingPayload where
  items : Option (List Item)
  current_page : Option Int
  total : Option Int
  perPage : Option Int
deriving DecidableEq, Repr

/-- A successful GET response body (HarmonieListingResponse). -/
structure GetResponseData where
  listing : Option ListingPayload
  filters : Option (List ActiveFilter)
deriving DecidableEq, Repr

/-- Settled outcome of the awaited transport GET call. -/
inductive FetchOutcome where
  | success (resp : GetResponseData)
  | failure (err : AxiosErr)
deriving DecidableEq, Repr

/-- Decide whether the fetch outcome is a success. -/
def FetchOutcome.isSuccess : FetchOutcome → Bool
  | .success _ => true
  | .failure _ => false

/-- The params field accepted by get: a raw string, a plain mapping, or a
zero-argument producer (modelled by the mapping it returns). -/
inductive ParamsArg where
  | strArg (s : String)
  | objArg (m : List (String × PVal))
  | funcArg (m : List (String × PVal))
deriving DecidableEq, Repr

/-- The config object accepted by get. The query field distinguishes absent
(outer none), explicitly null (some none) and an explicit query object. -/
structure GetConfig where
  params : Option ParamsArg
  query : Option (Option (List (String × QVal)))
deriving DecidableEq, Repr

/-- The call shapes of get: no argument, an explicit path with optional
config, or a config object alone. -/
inductive GetArg where
  | noArg
  | path (p : String) (cfg : Option GetConfig)
  | config (cfg : GetConfig)
deriving DecidableEq, Repr

/-- Errors thrown (promise rejections) by get: the missing-endpoint
configuration error and the missing-axios configuration error. -/
inductive GetErr where
  | pathMissing
  | axiosMissing
deriving DecidableEq, Repr

/-- The transport request issued by get: effective path and merged request
parameters. -/
structure GetRequest where
  path : String
  params : List (String × PVal)
deriving DecidableEq, Repr

/-- Result of one get call: the state left behind, the thrown error if the
promise rejected, and the transport request that was issued if any. -/
structure GetResult where
  state : ListingState
  thrown : Option GetErr
  request : Option GetRequest

namespace Listing

/-- Model of Listing.loading (lines 129-141). -/
def loading (st : ListingState) : ListingState :=
  if st.hasLoadedOnce then { st with isUpdating := true, isLoading := false }
  else { st with isLoading := true, isUpdating := false }

/-- Model of Listing.loaded (lines 146-149). -/
def loaded (st : ListingState) : ListingState :=
  { st with isLoading := false, isUpdating := false }

/-- Endpoint resolution of get (lines 461-473): an explicit string path
argument wins, otherwise the preconfigured path is used. -/
def resolvedPath (st : ListingState) : GetArg → Option String
  | .path p _ => some p
  | .config _ => st.apiPath
  | .noArg => st.apiPath

/-- The acting endpoint after the guard of line 475. The guard is a JS
truthiness check on the resolved path, so a missing path and the
empty-string path both fail to resolve and make get throw the
configuration error. -/
def effectivePath (st : ListingState) (arg : GetArg) : Option String :=
  match resolvedPath st arg with
  | none => none
  | some p => if p = "" then none else some p

/-- The actualConfig chosen by get from its two arguments. -/
def argConfig : GetArg → Option GetConfig
  | .path _ cfg => cfg
  | .config c => some c
  | .noArg => none

/-- External query source resolution of get (lines 479-492): an explicit
truthy query wins even when empty, otherwise the router's current query is
read, otherwise the query is empty. -/
def effectiveRouteQuery (st : ListingState) (arg : GetArg) : List (String × QVal) :=
  match (argConfig arg).bind GetConfig.query with
  | some (some q) => q
  | _ => if st.hasRouter then st.routerQuery else []

/-- JS String() of a primitive query value. -/
def stringOfQBase : QBase → String
  | .str s => s
  | .num n => String.mk (intToChars n)
  | .jnull => "null"

/-- Stringification used by the filter sync (lines 514-516): arrays
contribute the String() of their first element, String(undefined) for an
empty array. -/
def stringOfQueryVal : QVal → String
  | .base b => stringOfQBase b
  | .arr [] => "undefined"
  | .arr (b :: _) => stringOfQBase b

/-- Plain JS String() of a query value, used for the page entry (line 539):
arrays join their elements with commas and null elements become empty. -/
def stringOfQValFull : QVal → String
  | .base b => stringOfQBase b
  | .arr xs => String.intercalate "," (xs.map (fun b => match b with
      | .jnull => ""
      | b2 => stringOfQBase b2))

/-- JS truthiness of a query value (the `if routeQuery.page` guard). -/
def qvalTruthy : QVal → Bool
  | .base (.str s) => s != ""
  | .base (.num n) => n != 0
  | .base .jnull => false
  | .arr _ => true

/-- Maximal decimal digit prefix of a character list as a natural number,
none when there is no leading digit. -/
def parseDigitsPrefix (l : List Char) : Option Nat :=
  let ds := l.takeWhile Char.isDigit
  if ds = [] then none
  else some (Nat.ofDigits 10 ((ds.map (fun c => c.toNat - 48)).reverse))

/-- Model of JS parseInt(s, 10): skip leading whitespace, optional sign,
then the maximal digit prefix; NaN (none) when no digit follows. -/
def parseIntJS (s : String) : Option Int :=
  match s.data.dropWhile Char.isWhitespace with
  | '-' :: rest => (parseDigitsPrefix rest).map (fun m => -(m : Int))
  | '+' :: rest => (parseDigitsPrefix rest).map (fun m => (m : Int))
  | l => (parseDigitsPrefix l).map (fun m => (m : Int))

/-- Synchronisation of one filter key from the external query (lines
509-535): null and undefined query values are skipped, the key status only
accepts the strings verified and unverified, canonical filter entries are
written as strings, legacy ref cells are written through, and legacy plain
scalars are left untouched. -/
def syncKey (st : ListingState) (rq : List (String × QVal)) (k : String) : ListingState :=
  match lookupAssoc rq k with
  | none => st
  | some (.base .jnull) => st
  | some qv =>
    if k = "status" ∧ stringOfQueryVal qv ≠ "verified" ∧ stringOfQueryVal qv ≠ "unverified" then st
    else if k ∈ assocKeys st.filters then
      { st with filters := assocSet st.filters k (some (.str (stringOfQueryVal qv))) }
    else
      match lookupAssoc st.filterAttributes k with
      | some (.cell _) =>
        { st with filterAttributes := assocSet st.filterAttributes k (.cell (some (.str (stringOfQueryVal qv)))) }
      | _ => st

/-- The filter keys iterated by the query synchronisation (lines 505-507):
canonical keys when the canonical map is non-empty, else legacy keys. -/
def filterKeysOf (st : ListingState) : List String :=
  if st.filters ≠ [] then assocKeys st.filters else assocKeys st.filterAttributes

/-- Pagination part of the query synchronisation (lines 538-543): a truthy
page entry parsing to a positive integer overwrites currentPage. -/
def syncPage (st1 : ListingState) (rq : List (String × QVal)) : ListingState :=
  match lookupAssoc rq "page" with
  | some pv =>
    if qvalTruthy pv then
      match parseIntJS (stringOfQValFull pv) with
      | some p => if 0 < p then { st1 with currentPage := p } else st1
      | none => st1
    else st1
  | none => st1

/-- Query synchronisation step of get (lines 501-544): when the external
query is non-empty, update every known filter key from it and then the
current page from a positive parseable page entry. -/
def syncQuery (st : ListingState) (rq : List (String × QVal)) : ListingState :=
  if rq = [] then st
  else syncPage ((filterKeysOf st).foldl (fun s k => syncKey s rq k) st) rq

/-- Hexadecimal digit value of a character. -/
def hexVal (c : Char) : Option Nat :=
  if c.isDigit then some (c.toNat - 48)
  else if 'A' ≤ c ∧ c ≤ 'F' then some (c.toNat - 55)
  else if 'a' ≤ c ∧ c ≤ 'f' then some (c.toNat - 87)
  else none

/-- Percent-decoding as URLSearchParams performs it on parsing, restricted
to single-byte sequences (the ASCII range covered by the claims): a percent
followed by two hex digits decodes to that character, plus decodes to a
space, everything else is literal. -/
def percentDecode : List Char → List Char
  | [] => []
  | c :: rest =>
    if c = '%' then
      match rest with
      | a :: b :: rest2 =>
        match hexVal a, hexVal b with
        | some x, some y => Char.ofNat (16 * x + y) :: percentDecode rest2
        | _, _ => '%' :: percentDecode (a :: b :: rest2)
      | r => '%' :: percentDecode r
    else if c = '+' then ' ' :: percentDecode rest
    else c :: percentDecode rest

/-- Split a character list at every occurrence of the separator. -/
def splitOnChar (sep : Char) : List Char → List (List Char)
  | [] => [[]]
  | c :: rest =>
    match splitOnChar sep rest with
    | [] => [[c]]
    | seg :: segs => if c = sep then [] :: seg :: segs else (c :: seg) :: segs

/-- The key and value entries URLSearchParams yields for a query string:
split on ampersands, ignore empty segments, split each segment at its first
equals sign, percent-decode both sides. -/
def parseQSEntries (l : List Char) : List (String × String) :=
  ((splitOnChar '&' l).filter (fun seg => !seg.isEmpty)).map (fun seg =>
    (String.mk (percentDecode (seg.takeWhile (fun c => c != '='))),
     String.mk (percentDecode ((seg.dropWhile (fun c => c != '=')).drop 1))))

/-- The query-string branch of normalizeParams (lines 402-409): each entry
is collected into a record, values opportunistically coerced to numbers. -/
def parseQueryString (l : List Char) : List (String × PVal) :=
  (parseQSEntries l).foldl (fun acc kv => objSet acc kv.1 (numCoerceStr kv.2)) []

/-- Model of Listing.normalizeParams (lines 392-427). The reflective
method-name branch (a bare string naming an instance method) is modelled as
yielding the empty mapping, as the code does when no matching method
exists; no zero-argument parameter-producing method is part of this model.
A producer callback is modelled by the mapping it returns. -/
def normalizeParams (p : Option ParamsArg) : List (String × PVal) :=
  match p with
  | none => []
  | some (.strArg s) =>
    match s.data with
    | '?' :: rest => parseQueryString rest
    | '&' :: rest => parseQueryString ('&' :: rest)
    | _ => []
  | some (.objArg m) => m
  | some (.funcArg m) => m

/-- Modelled from the spec: the characters application/x-www-form-urlencoded
serialization leaves literal (letters, digits and the marks minus,
underscore, dot, star); every other character is percent-encoded. The
serialization itself is performed by URLSearchParams in the router layer,
outside this repository, so it is modelled from the spec's round-trip
sentence. -/
def isUnreservedChar (c : Char) : Bool :=
  c.isAlphanum || c = '-' || c = '_' || c = '.' || c = '*'

/-- Uppercase hexadecimal digit character. -/
def hexDigitChar (n : Nat) : Char :=
  if n < 10 then Char.ofNat (48 + n) else Char.ofNat (55 + n)

/-- Modelled from the spec: percent-encoding of one character (single-byte
sequences; the claims quantify over ASCII inputs). -/
def percentEncodeChar (c : Char) : List Char :=
  if isUnreservedChar c then [c]
  else ['%', hexDigitChar (c.toNat / 16), hexDigitChar (c.toNat % 16)]

/-- Modelled from the spec: percent-encoding of a character list. -/
def percentEncode (l : List Char) : List Char :=
  (l.map percentEncodeChar).flatten

/-- Join segments with a separator character. -/
def joinChar (sep : Char) : List (List Char) → List Char
  | [] => []
  | [x] => x
  | x :: xs => x ++ sep :: joinChar sep xs

/-- Modelled from the spec: serializing a filter mapping into a ?-prefixed
URL query string, each key and stringified value percent-encoded, pairs
joined with equals signs and ampersands, as the router layer's
URLSearchParams serialization produces. -/
def encodeQueryString (m : List (String × PVal)) : String :=
  String.mk ('?' :: joinChar '&' (m.map (fun kv =>
    percentEncode kv.1.data ++ '=' :: percentEncode (jsString kv.2).data)))

/-- Every character of the list is in the ASCII range. -/
def allAscii (l : List Char) : Bool :=
  l.all (fun c => c.toNat < 128)

/-- A scalar whose textual content is ASCII: every string character below
128; numbers always qualify (their decimal text is ASCII). -/
def pvalAscii (v : PVal) : Bool :=
  match v with
  | .str s => allAscii s.data
  | .num _ => true

/-- JS object spread of two records: keys of the first in order with values
overridden by the second, then new keys of the second. -/
def spreadMerge (a b : List (String × PVal)) : List (String × PVal) :=
  a.map (fun kv => (kv.1, match lookupAssoc b kv.1 with
    | some w => w
    | none => kv.2))
    ++ b.filter (fun kv => (lookupAssoc a kv.1).isNone)

/-- The merged request parameters of get (lines 553-558): page and per_page,
overridden by filter parameters, overridden by explicit params. -/
def requestParameters (st : ListingState) (prms : List (String × PVal)) : List (String × PVal) :=
  spreadMerge
    (spreadMerge [("page", .num st.currentPage), ("per_page", .num st.perPage)]
      (buildFilterParameters st))
    prms

/-- Fixed message stored for a 403 rejection. -/
def permissionErrorMessage : String := "You do not have permission to access this resource."

/-- Generic fallback message stored for other rejections. -/
def genericLoadErrorMessage : String := "Failed to load data. Please try again later."

/-- HTTP status extracted from a rejected transport error. -/
def errStatus (e : AxiosErr) : Option Int :=
  e.response.bind ErrResponse.status

/-- Server-supplied message extracted from a rejected transport error. -/
def errMessage (e : AxiosErr) : Option String :=
  e.response.bind (fun r => r.data.bind ErrData.message)

/-- Default error message derivation of get (lines 581-587): the fixed
permission message for status 403, else a truthy server message, else the
generic fallback. -/
def defaultErrorMessage (e : AxiosErr) : String :=
  if errStatus e = some 403 then permissionErrorMessage
  else
    match errMessage e with
    | some m => if m = "" then genericLoadErrorMessage else m
    | none => genericLoadErrorMessage

/-- The stored error after passing the default through the configured error
handler, identity when none is configured (lines 589-594). -/
def applyErrorHandler (h : Option (Option String → Option Int → Option String))
    (d : String) (status : Option Int) : Option String :=
  match h with
  | some f => f (some d) status
  | none => some d

/-- Success branch of get (lines 565-571) followed by the finally block. -/
def settleSuccess (st : ListingState) (resp : GetResponseData) : ListingState :=
  let listing := match resp.listing with
    | some l => l
    | none => ⟨none, none, none, none⟩
  loaded { st with
    data := listing.items.getD [],
    currentPage := listing.current_page.getD 1,
    total := listing.total.getD 0,
    perPage := listing.perPage.getD 15,
    activeFilters := resp.filters.getD [],
    hasLoadedOnce := true }

/-- Failure branch of get (lines 578-596) followed by the finally block. -/
def settleFailure (st : ListingState) (e : AxiosErr) : ListingState :=
  loaded { st with error := applyErrorHandler st.errorHandler (defaultErrorMessage e) (errStatus e) }

/-- The state while the transport GET is awaited: external query synced,
loading phase set, error cleared (lines 501-558). -/
def inflightState (st : ListingState) (arg : GetArg) : ListingState :=
  { loading (syncQuery st (effectiveRouteQuery st arg)) with error := none }

/-- Model of Listing.get (lines 444-600). A missing or empty (falsy)
endpoint rejects before any mutation; a missing axios instance rejects after the loading phase was
set and cleared again by the finally block; otherwise the transport result
settles the state and the promise resolves. -/
def get (st : ListingState) (arg : GetArg) (outcome : FetchOutcome) : GetResult :=
  match effectivePath st arg with
  | none => ⟨st, some .pathMissing, none⟩
  | some p =>
    let stF := inflightState st arg
    if st.axiosConfigured then
      let req : GetRequest := ⟨p, requestParameters stF (normalizeParams ((argConfig arg).bind GetConfig.params))⟩
      match outcome with
      | .success resp => ⟨settleSuccess stF resp, none, some req⟩
      | .failure e => ⟨settleFailure stF e, none, some req⟩
    else ⟨loaded stF, some .axiosMissing, none⟩

end Listing

section AssocLemmas

variable {A B : Type}

theorem lookupAssoc_eq_none {m : List (String × A)} {k : String}
    (h : k ∉ assocKeys m) : lookupAssoc m k = none := by
  induction m with
  | nil => rfl
  | cons hd tl ih =>
    obtain ⟨k1, v1⟩ := hd
    simp only [assocKeys, List.map_cons, List.mem_cons] at h
    push_neg at h
    rw [lookupAssoc, if_neg (show ¬ k1 = k from fun he => h.1 he.symm)]
    exact ih (by simpa [assocKeys] using h.2)

theorem assocKeys_filterMapClean (g : A → Option B) (src : List (String × A)) :
    List.Sublist
      (assocKeys (src.filterMap (fun kv => (g kv.2).map (fun w => (kv.1, w)))))
      (assocKeys src) := by
  induction src with
  | nil => simp [assocKeys]
  | cons hd tl ih =>
    cases hg : g hd.2 with
    | none =>
      simp only [assocKeys, List.filterMap_cons, hg, Option.map_none', List.map_cons]
      exact List.Sublist.cons _ ih
    | some w =>
      simp only [assocKeys, List.filterMap_cons, hg, Option.map_some', List.map_cons]
      exact List.Sublist.cons₂ _ ih

theorem lookupAssoc_filterMapClean (g : A → Option B) {src : List (String × A)}
    {k : String} {v : A}
    (hnd : (assocKeys src).Nodup)
    (hv : lookupAssoc src k = some v) :
    lookupAssoc (src.filterMap (fun kv => (g kv.2).map (fun w => (kv.1, w)))) k = g v := by
  induction src with
  | nil => simp [lookupAssoc] at hv
  | cons hd tl ih =>
    obtain ⟨k1, v1⟩ := hd
    simp only [assocKeys, List.map_cons, List.nodup_cons] at hnd
    by_cases hk : k1 = k
    · subst hk
      simp only [lookupAssoc, if_pos rfl] at hv
      cases hv
      cases hg : g v with
      | none =>
        simp only [List.filterMap_cons, hg, Option.map_none']
        have : k1 ∉ assocKeys (tl.filterMap (fun kv => (g kv.2).map (fun w => (kv.1, w)))) := by
          intro hmem
          exact hnd.1 ((assocKeys_filterMapClean g tl).mem hmem)
        exact lookupAssoc_eq_none this
      | some w =>
        simp [List.filterMap_cons, hg, lookupAssoc]
    · simp only [lookupAssoc, if_neg hk] at hv
      cases hg : g v1 with
      | none =>
        simp only [List.filterMap_cons, hg, Option.map_none']
        exact ih hnd.2 hv
      | some w =>
        simp only [List.filterMap_cons, hg, Option.map_some', lookupAssoc, if_neg hk]
        exact ih hnd.2 hv

end AssocLemmas

/-- Claim C1: for every configured filter mapping (the canonical map when
non-empty, else the legacy external cells), buildFilterParameters omits
every key whose extracted value is null or undefined, the empty string, a
string trimming to the empty string, or exactly the string all; every
surviving string value appears trimmed under its key and every surviving
numeric value appears verbatim under its key. -/
theorem claim1_buildFilterParameters_filtering (st : ListingState)
    (hnd : (assocKeys (Listing.filterSource st)).Nodup)
    (k : String) (v : Option PVal)
    (hv : lookupAssoc (Listing.filterSource st) k = some v) :
    ((v = none ∨ ∃ s, v = some (.str s) ∧ (s = "" ∨ jsTrim s = "" ∨ s = "all")) →
      lookupAssoc (Listing.buildFilterParameters st) k = none)
    ∧ (∀ s, v = some (.str s) → jsTrim s ≠ "" → s ≠ "all" →
      lookupAssoc (Listing.buildFilterParameters st) k = some (.str (jsTrim s)))
    ∧ (∀ n, v = some (.num n) →
      lookupAssoc (Listing.buildFilterParameters st) k = some (.num n)) := by
  have hbase := lookupAssoc_filterMapClean Listing.cleanValue hnd hv
  refine ⟨?_, ?_, ?_⟩
  · rintro (rfl | ⟨s, rfl, hs⟩)
    · simpa [Listing.cleanValue] using hbase
    · rw [Listing.buildFilterParameters, hbase]
      rcases hs with hs | hs | hs
      · simp [Listing.cleanValue, hs]
      · rcases em (s = "") with h0 | h0
        · simp [Listing.cleanValue, h0]
        · rcases em (s = "all") with ha | ha
          · simp [Listing.cleanValue, h0, ha]
          · simp [Listing.cleanValue, h0, ha, hs]
      · simp [Listing.cleanValue, hs]
  · rintro s rfl htrim hall
    have hs0 : s ≠ "" := by
      intro h0
      subst h0
      exact htrim rfl
    rw [Listing.buildFilterParameters, hbase]
    simp [Listing.cleanValue, hs0, hall, htrim]
  · rintro n rfl
    rw [Listing.buildFilterParameters, hbase]
    simp [Listing.cleanValue]

/-- Concrete instantiation of claim C1: a state whose canonical filters hold
a paddable string, a number, a null, an all and a blank value. -/
def c1State : ListingState :=
  { initialState with
    filters := [("search", some (.str "  abc ")), ("page_size", some (.num 25)),
                ("status", some (.str "all")), ("empty", some (.str "   ")),
                ("missing", none)] }

theorem claim1_witness :
    (assocKeys (Listing.filterSource c1State)).Nodup
    ∧ lookupAssoc (Listing.buildFilterParameters c1State) "search" = some (.str "abc")
    ∧ lookupAssoc (Listing.buildFilterParameters c1State) "page_size" = some (.num 25)
    ∧ lookupAssoc (Listing.buildFilterParameters c1State) "status" = none
    ∧ lookupAssoc (Listing.buildFilterParameters c1State) "empty" = none
    ∧ lookupAssoc (Listing.buildFilterParameters c1State) "missing" = none := by
  have h1 := claim1_buildFilterParameters_filtering c1State (by decide)
    "search" (some (.str "  abc ")) (by decide)
  have h2 := claim1_buildFilterParameters_filtering c1State (by decide)
    "page_size" (some (.num 25)) (by decide)
  have h3 := claim1_buildFilterParameters_filtering c1State (by decide)
    "status" (some (.str "all")) (by decide)
  have h4 := claim1_buildFilterParameters_filtering c1State (by decide)
    "empty" (some (.str "   ")) (by decide)
  have h5 := claim1_buildFilterParameters_filtering c1State (by decide)
    "missing" none (by decide)
  refine ⟨by decide, ?_, ?_, ?_, ?_, ?_⟩
  · have hres := h1.2.1 "  abc " rfl (by decide) (by decide)
    have he : jsTrim "  abc " = "abc" := by decide
    rw [he] at hres
    exact hres
  · exact h2.2.2 25 rfl
  · exact h3.1 (Or.inr ⟨"all", rfl, Or.inr (Or.inr rfl)⟩)
  · exact h4.1 (Or.inr ⟨"   ", rfl, Or.inr (Or.inl (by decide))⟩)
  · exact h5.1 (Or.inl rfl)

section SyncLemmas

theorem assocKeys_assocSet {A : Type} (m : List (String × A)) (k : String) (v : A) :
    assocKeys (assocSet m k v) = assocKeys m := by
  induction m with
  | nil => rfl
  | cons hd tl ih =>
    obtain ⟨k1, w⟩ := hd
    by_cases h : k1 = k
    · simp [assocSet, h, assocKeys]
    · simp [assocSet, h, assocKeys]
      simpa [assocKeys] using ih

theorem lookupAssoc_assocSet_self {A : Type} {m : List (String × A)} {k : String}
    (h : k ∈ assocKeys m) (v : A) :
    lookupAssoc (assocSet m k v) k = some v := by
  induction m with
  | nil => simp [assocKeys] at h
  | cons hd tl ih =>
    obtain ⟨k1, w⟩ := hd
    by_cases hk : k1 = k
    · simp [assocSet, hk, lookupAssoc]
    · have h2 : k ∈ assocKeys tl := by
        simp only [assocKeys, List.map_cons, List.mem_cons] at h
        rcases h with h | h
        · exact absurd h.symm hk
        · exact h
      simp [assocSet, hk, lookupAssoc, ih h2]

theorem lookupAssoc_assocSet_ne {A : Type} (m : List (String × A)) {k' k : String}
    (h : k' ≠ k) (v : A) :
    lookupAssoc (assocSet m k' v) k = lookupAssoc m k := by
  induction m with
  | nil => rfl
  | cons hd tl ih =>
    obtain ⟨k1, w⟩ := hd
    by_cases h1 : k1 = k'
    · subst h1
      simp [assocSet, lookupAssoc, h]
    · by_cases h2 : k1 = k
      · subst h2
        simp [assocSet, lookupAssoc, h1, Ne.symm h]
      · simp [assocSet, h1, lookupAssoc, h2, ih]

theorem syncKey_shape (st : ListingState) (rq : List (String × QVal)) (k : String) :
    ∃ f a, Listing.syncKey st rq k = { st with filters := f, filterAttributes := a } := by
  unfold Listing.syncKey
  repeat' split
  all_goals first
    | exact ⟨st.filters, st.filterAttributes, rfl⟩
    | exact ⟨_, st.filterAttributes, rfl⟩
    | exact ⟨st.filters, _, rfl⟩

theorem foldl_syncKey_shape (rq : List (String × QVal)) (ks : List String) :
    ∀ st : ListingState, ∃ f a,
      ks.foldl (fun s k => Listing.syncKey s rq k) st = { st with filters := f, filterAttributes := a } := by
  induction ks with
  | nil => exact fun st => ⟨st.filters, st.filterAttributes, rfl⟩
  | cons k ks ih =>
    intro st
    obtain ⟨f1, a1, h1⟩ := syncKey_shape st rq k
    obtain ⟨f2, a2, h2⟩ := ih (Listing.syncKey st rq k)
    refine ⟨f2, a2, ?_⟩
    rw [List.foldl_cons, h2, h1]

theorem syncPage_shape (st : ListingState) (rq : List (String × QVal)) :
    ∃ p, Listing.syncPage st rq = { st with currentPage := p } := by
  unfold Listing.syncPage
  repeat' split
  all_goals exact ⟨_, rfl⟩

theorem syncQuery_shape (st : ListingState) (rq : List (String × QVal)) :
    ∃ f a p, Listing.syncQuery st rq = { st with filters := f, filterAttributes := a, currentPage := p } := by
  unfold Listing.syncQuery
  by_cases h : rq = []
  · rw [if_pos h]
    exact ⟨st.filters, st.filterAttributes, st.currentPage, rfl⟩
  · rw [if_neg h]
    obtain ⟨f, a, hfold⟩ := foldl_syncKey_shape rq (Listing.filterKeysOf st) st
    obtain ⟨p, hpage⟩ := syncPage_shape ((Listing.filterKeysOf st).foldl (fun s k => Listing.syncKey s rq k) st) rq
    rw [hpage, hfold]
    exact ⟨f, a, p, rfl⟩

end SyncLemmas

section SlotLemmas

theorem mem_assocKeys_of_lookup {A : Type} {m : List (String × A)} {k : String} {v : A}
    (h : lookupAssoc m k = some v) : k ∈ assocKeys m := by
  induction m with
  | nil => simp [lookupAssoc] at h
  | cons hd tl ih =>
    obtain ⟨k1, w⟩ := hd
    by_cases hk : k1 = k
    · simp [assocKeys, hk]
    · rw [lookupAssoc, if_neg hk] at h
      simp only [assocKeys, List.map_cons, List.mem_cons]
      exact Or.inr (ih h)

theorem syncKey_filters_keys (st : ListingState) (rq : List (String × QVal)) (k' : String) :
    assocKeys (Listing.syncKey st rq k').filters = assocKeys st.filters := by
  unfold Listing.syncKey
  repeat' split
  all_goals first
    | rfl
    | exact assocKeys_assocSet _ _ _

theorem syncKey_slot_ne (st : ListingState) (rq : List (String × QVal)) {k' k : String}
    (h : k' ≠ k) :
    lookupAssoc (Listing.syncKey st rq k').filters k = lookupAssoc st.filters k
    ∧ lookupAssoc (Listing.syncKey st rq k').filterAttributes k = lookupAssoc st.filterAttributes k := by
  unfold Listing.syncKey
  repeat' split
  all_goals first
    | exact ⟨rfl, rfl⟩
    | exact ⟨lookupAssoc_assocSet_ne _ h _, rfl⟩
    | exact ⟨rfl, lookupAssoc_assocSet_ne _ h _⟩

theorem syncKey_status_skip (st : ListingState) (rq : List (String × QVal)) {qv : QVal}
    (hq : lookupAssoc rq "status" = some qv)
    (h1 : Listing.stringOfQueryVal qv ≠ "verified")
    (h2 : Listing.stringOfQueryVal qv ≠ "unverified") :
    Listing.syncKey st rq "status" = st := by
  unfold Listing.syncKey
  rw [hq]
  rcases qv with b | xs
  · rcases b with s | n | _
    · exact if_pos ⟨rfl, h1, h2⟩
    · exact if_pos ⟨rfl, h1, h2⟩
    · rfl
  · exact if_pos ⟨rfl, h1, h2⟩

theorem syncKey_writes_canonical (st : ListingState) (rq : List (String × QVal))
    {k : String} {qv : QVal}
    (hq : lookupAssoc rq k = some qv)
    (hnn : qv ≠ QVal.base QBase.jnull)
    (hstat : ¬(k = "status" ∧ Listing.stringOfQueryVal qv ≠ "verified"
        ∧ Listing.stringOfQueryVal qv ≠ "unverified"))
    (hmem : k ∈ assocKeys st.filters) :
    lookupAssoc (Listing.syncKey st rq k).filters k
      = some (some (.str (Listing.stringOfQueryVal qv))) := by
  unfold Listing.syncKey
  rw [hq]
  rcases qv with b | xs
  · rcases b with s | n | _
    · simp only [if_neg hstat, if_pos hmem]
      exact lookupAssoc_assocSet_self hmem _
    · simp only [if_neg hstat, if_pos hmem]
      exact lookupAssoc_assocSet_self hmem _
    · exact absurd rfl hnn
  · simp only [if_neg hstat, if_pos hmem]
    exact lookupAssoc_assocSet_self hmem _

theorem syncKey_writes_cell (st : ListingState) (rq : List (String × QVal))
    {k : String} {qv : QVal} {w : Option PVal}
    (hq : lookupAssoc rq k = some qv)
    (hnn : qv ≠ QVal.base QBase.jnull)
    (hstat : ¬(k = "status" ∧ Listing.stringOfQueryVal qv ≠ "verified"
        ∧ Listing.stringOfQueryVal qv ≠ "unverified"))
    (hnmem : k ∉ assocKeys st.filters)
    (hcell : lookupAssoc st.filterAttributes k = some (.cell w)) :
    lookupAssoc (Listing.syncKey st rq k).filterAttributes k
      = some (.cell (some (.str (Listing.stringOfQueryVal qv))))
    ∧ (Listing.syncKey st rq k).filters = st.filters := by
  have hamem : k ∈ assocKeys st.filterAttributes := mem_assocKeys_of_lookup hcell
  unfold Listing.syncKey
  rw [hq]
  rcases qv with b | xs
  · rcases b with s | n | _
    · simp only [if_neg hstat, if_neg hnmem, hcell]
      exact ⟨lookupAssoc_assocSet_self hamem _, by trivial⟩
    · simp only [if_neg hstat, if_neg hnmem, hcell]
      exact ⟨lookupAssoc_assocSet_self hamem _, by trivial⟩
    · exact absurd rfl hnn
  · simp only [if_neg hstat, if_neg hnmem, hcell]
    exact ⟨lookupAssoc_assocSet_self hamem _, by trivial⟩

end SlotLemmas

section FoldLemmas

theorem foldl_syncKey_slot_notin (rq : List (String × QVal)) {k : String} :
    ∀ ks : List String, k ∉ ks → ∀ st : ListingState,
      lookupAssoc (ks.foldl (fun s k2 => Listing.syncKey s rq k2) st).filters k
        = lookupAssoc st.filters k
      ∧ lookupAssoc (ks.foldl (fun s k2 => Listing.syncKey s rq k2) st).filterAttributes k
        = lookupAssoc st.filterAttributes k := by
  intro ks
  induction ks with
  | nil => exact fun _ st => ⟨rfl, rfl⟩
  | cons k1 ks ih =>
    intro hk st
    have hne : k1 ≠ k := fun he => hk (by simp [he])
    have h1 := syncKey_slot_ne st rq hne
    have h2 := ih (fun hm => hk (List.mem_cons_of_mem _ hm)) (Listing.syncKey st rq k1)
    rw [List.foldl_cons]
    exact ⟨h2.1.trans h1.1, h2.2.trans h1.2⟩

theorem foldl_syncKey_status_invalid (rq : List (String × QVal)) {qv : QVal}
    (hq : lookupAssoc rq "status" = some qv)
    (h1 : Listing.stringOfQueryVal qv ≠ "verified")
    (h2 : Listing.stringOfQueryVal qv ≠ "unverified") :
    ∀ ks : List String, ∀ st : ListingState,
      lookupAssoc (ks.foldl (fun s k2 => Listing.syncKey s rq k2) st).filters "status"
        = lookupAssoc st.filters "status"
      ∧ lookupAssoc (ks.foldl (fun s k2 => Listing.syncKey s rq k2) st).filterAttributes "status"
        = lookupAssoc st.filterAttributes "status" := by
  intro ks
  induction ks with
  | nil => exact fun st => ⟨rfl, rfl⟩
  | cons k1 ks ih =>
    intro st
    rw [List.foldl_cons]
    by_cases hk : k1 = "status"
    · subst hk
      rw [syncKey_status_skip st rq hq h1 h2]
      exact ih st
    · have hs := syncKey_slot_ne st rq hk
      have h3 := ih (Listing.syncKey st rq k1)
      exact ⟨h3.1.trans hs.1, h3.2.trans hs.2⟩

theorem foldl_syncKey_keep_canonical (rq : List (String × QVal)) {k : String} {qv : QVal}
    (hq : lookupAssoc rq k = some qv)
    (hnn : qv ≠ QVal.base QBase.jnull)
    (hstat : ¬(k = "status" ∧ Listing.stringOfQueryVal qv ≠ "verified"
        ∧ Listing.stringOfQueryVal qv ≠ "unverified")) :
    ∀ ks : List String, ∀ st : ListingState,
      k ∈ assocKeys st.filters →
      lookupAssoc st.filters k = some (some (.str (Listing.stringOfQueryVal qv))) →
      lookupAssoc (ks.foldl (fun s k2 => Listing.syncKey s rq k2) st).filters k
        = some (some (.str (Listing.stringOfQueryVal qv))) := by
  intro ks
  induction ks with
  | nil => exact fun st _ h => h
  | cons k1 ks ih =>
    intro st hmem hval
    rw [List.foldl_cons]
    by_cases hk : k1 = k
    · subst hk
      apply ih
      · rw [syncKey_filters_keys]
        exact hmem
      · exact syncKey_writes_canonical st rq hq hnn hstat hmem
    · apply ih
      · rw [syncKey_filters_keys]
        exact hmem
      · rw [(syncKey_slot_ne st rq hk).1]
        exact hval

theorem foldl_syncKey_write_canonical (rq : List (String × QVal)) {k : String} {qv : QVal}
    (hq : lookupAssoc rq k = some qv)
    (hnn : qv ≠ QVal.base QBase.jnull)
    (hstat : ¬(k = "status" ∧ Listing.stringOfQueryVal qv ≠ "verified"
        ∧ Listing.stringOfQueryVal qv ≠ "unverified")) :
    ∀ ks : List String, ∀ st : ListingState,
      k ∈ ks →
      k ∈ assocKeys st.filters →
      lookupAssoc (ks.foldl (fun s k2 => Listing.syncKey s rq k2) st).filters k
        = some (some (.str (Listing.stringOfQueryVal qv))) := by
  intro ks
  induction ks with
  | nil => intro st h; exact absurd h (List.not_mem_nil k)
  | cons k1 ks ih =>
    intro st hin hmem
    rw [List.foldl_cons]
    by_cases hk : k1 = k
    · subst hk
      apply foldl_syncKey_keep_canonical rq hq hnn hstat
      · rw [syncKey_filters_keys]
        exact hmem
      · exact syncKey_writes_canonical st rq hq hnn hstat hmem
    · have hin2 : k ∈ ks := by
        rcases List.mem_cons.mp hin with h | h
        · exact absurd h.symm hk
        · exact h
      apply ih _ hin2
      rw [syncKey_filters_keys]
      exact hmem

theorem foldl_syncKey_keep_cell (rq : List (String × QVal)) {k : String} {qv : QVal}
    (hq : lookupAssoc rq k = some qv)
    (hnn : qv ≠ QVal.base QBase.jnull)
    (hstat : ¬(k = "status" ∧ Listing.stringOfQueryVal qv ≠ "verified"
        ∧ Listing.stringOfQueryVal qv ≠ "unverified")) :
    ∀ ks : List String, ∀ st : ListingState,
      k ∉ assocKeys st.filters →
      lookupAssoc st.filterAttributes k
        = some (.cell (some (.str (Listing.stringOfQueryVal qv)))) →
      lookupAssoc (ks.foldl (fun s k2 => Listing.syncKey s rq k2) st).filterAttributes k
        = some (.cell (some (.str (Listing.stringOfQueryVal qv)))) := by
  intro ks
  induction ks with
  | nil => exact fun st _ h => h
  | cons k1 ks ih =>
    intro st hnmem hval
    rw [List.foldl_cons]
    by_cases hk : k1 = k
    · subst hk
      apply ih
      · rw [syncKey_filters_keys]
        exact hnmem
      · exact (syncKey_writes_cell st rq hq hnn hstat hnmem hval).1
    · apply ih
      · rw [syncKey_filters_keys]
        exact hnmem
      · rw [(syncKey_slot_ne st rq hk).2]
        exact hval

theorem foldl_syncKey_write_cell (rq : List (String × QVal)) {k : String} {qv : QVal}
    {w : Option PVal}
    (hq : lookupAssoc rq k = some qv)
    (hnn : qv ≠ QVal.base QBase.jnull)
    (hstat : ¬(k = "status" ∧ Listing.stringOfQueryVal qv ≠ "verified"
        ∧ Listing.stringOfQueryVal qv ≠ "unverified")) :
    ∀ ks : List String, ∀ st : ListingState,
      k ∈ ks →
      k ∉ assocKeys st.filters →
      lookupAssoc st.filterAttributes k = some (.cell w) →
      lookupAssoc (ks.foldl (fun s k2 => Listing.syncKey s rq k2) st).filterAttributes k
        = some (.cell (some (.str (Listing.stringOfQueryVal qv)))) := by
  intro ks
  induction ks with
  | nil => intro st h; exact absurd h (List.not_mem_nil k)
  | cons k1 ks ih =>
    intro st hin hnmem hval
    rw [List.foldl_cons]
    by_cases hk : k1 = k
    · subst hk
      apply foldl_syncKey_keep_cell rq hq hnn hstat
      · rw [syncKey_filters_keys]
        exact hnmem
      · exact (syncKey_writes_cell st rq hq hnn hstat hnmem hval).1
    · have hin2 : k ∈ ks := by
        rcases List.mem_cons.mp hin with h | h
        · exact absurd h.symm hk
        · exact h
      have hs := syncKey_slot_ne st rq hk
      apply ih _ hin2
      · rw [syncKey_filters_keys]
        exact hnmem
      · rw [hs.2]
        exact hval

theorem syncQuery_filters_eq (st : ListingState) (rq : List (String × QVal)) (h : rq ≠ []) :
    (Listing.syncQuery st rq).filters
      = ((Listing.filterKeysOf st).foldl (fun s k => Listing.syncKey s rq k) st).filters
    ∧ (Listing.syncQuery st rq).filterAttributes
      = ((Listing.filterKeysOf st).foldl (fun s k => Listing.syncKey s rq k) st).filterAttributes := by
  unfold Listing.syncQuery
  rw [if_neg h]
  obtain ⟨p, hp⟩ := syncPage_shape ((Listing.filterKeysOf st).foldl (fun s k => Listing.syncKey s rq k) st) rq
  rw [hp]
  exact ⟨rfl, rfl⟩

end FoldLemmas

/-- Claim C7: for every call to fetch, the acting endpoint resolves in
priority order: an explicit string path argument wins; with an options
object (or nothing) as first argument the preconfigured endpoint is used.
The guard on the resolved path is a JS truthiness check, so the endpoint
effectively resolves exactly when the resolved path is present and
non-empty; when it does not (missing or empty-string path), fetch throws
the configuration error without storing anything in the state (the state
is returned untouched), and when it does with a transport configured, the
request is issued to exactly that path and no configuration error is
thrown. -/
theorem claim7_endpoint_resolution (st : ListingState) (outcome : FetchOutcome) :
    (∀ p cfg, Listing.resolvedPath st (.path p cfg) = some p)
    ∧ (∀ cfg, Listing.resolvedPath st (.config cfg) = st.apiPath)
    ∧ Listing.resolvedPath st .noArg = st.apiPath
    ∧ (∀ arg p, Listing.effectivePath st arg = some p ↔
        Listing.resolvedPath st arg = some p ∧ p ≠ "")
    ∧ (∀ arg, Listing.effectivePath st arg = none →
        Listing.get st arg outcome = ⟨st, some .pathMissing, none⟩)
    ∧ (∀ arg p, Listing.effectivePath st arg = some p → st.axiosConfigured = true →
        (Listing.get st arg outcome).thrown = none
        ∧ (Listing.get st arg outcome).request.map GetRequest.path = some p) := by
  refine ⟨fun p cfg => rfl, fun cfg => rfl, rfl, ?_, ?_, ?_⟩
  · intro arg p
    rw [Listing.effectivePath]
    cases h : Listing.resolvedPath st arg with
    | none => simp
    | some q =>
      show (if q = "" then none else some q) = some p ↔
        some q = some p ∧ p ≠ ""
      by_cases hq : q = ""
      · subst hq
        simp
        exact fun h3 => h3.symm
      · rw [if_neg hq]
        constructor
        · intro h2
          rw [Option.some_inj] at h2
          subst h2
          exact ⟨rfl, hq⟩
        · rintro ⟨h2, _⟩
          rw [Option.some_inj] at h2
          rw [h2]
  · intro arg h
    unfold Listing.get
    rw [h]
  · intro arg p h hax
    unfold Listing.get
    rw [h]
    cases outcome <;> simp [hax]

/-- Concrete instantiation of claim C7: an explicit path wins, the
preconfigured path is used otherwise, a missing endpoint throws, and so
does an explicit empty-string path (JS falsy). -/
def c7State : ListingState :=
  { initialState with apiPath := some "/api/cfg", axiosConfigured := true }

theorem claim7_witness :
    Listing.resolvedPath c7State (.path "/explicit" none) = some "/explicit"
    ∧ (Listing.get c7State .noArg (.success ⟨none, none⟩)).request.map GetRequest.path
        = some "/api/cfg"
    ∧ Listing.get { c7State with apiPath := none } .noArg (.success ⟨none, none⟩)
        = ⟨{ c7State with apiPath := none }, some .pathMissing, none⟩
    ∧ Listing.get c7State (.path "" none) (.success ⟨none, none⟩)
        = ⟨c7State, some .pathMissing, none⟩ := by
  have h := claim7_endpoint_resolution c7State (.success ⟨none, none⟩)
  have h2 := claim7_endpoint_resolution { c7State with apiPath := none } (.success ⟨none, none⟩)
  exact ⟨h.1 "/explicit" none,
    (h.2.2.2.2.2 .noArg "/api/cfg" rfl rfl).2,
    h2.2.2.2.2.1 .noArg rfl,
    h.2.2.2.2.1 (.path "" none) rfl⟩

/-- Claim C4: for every fetch that goes in flight (endpoint resolves and a
transport is configured), exactly one of isLoading and isUpdating is true
during the in-flight window: isLoading when no fetch has ever completed
successfully (hasLoadedOnce still false), isUpdating otherwise, never both;
and both are false immediately after the fetch settles, on success and on
failure alike. -/
theorem claim4_loading_flags (st : ListingState) (arg : GetArg)
    (hpath : (Listing.effectivePath st arg).isSome = true)
    (hax : st.axiosConfigured = true) :
    ((Listing.inflightState st arg).isLoading = !st.hasLoadedOnce
      ∧ (Listing.inflightState st arg).isUpdating = st.hasLoadedOnce
      ∧ (Listing.inflightState st arg).isLoading = !(Listing.inflightState st arg).isUpdating)
    ∧ ∀ outcome : FetchOutcome,
        (Listing.get st arg outcome).state.isLoading = false
        ∧ (Listing.get st arg outcome).state.isUpdating = false := by
  obtain ⟨f, a, p, hsync⟩ := syncQuery_shape st (Listing.effectiveRouteQuery st arg)
  constructor
  · unfold Listing.inflightState
    rw [hsync]
    unfold Listing.loading
    cases hh : st.hasLoadedOnce <;> simp [hh]
  · intro outcome
    obtain ⟨p0, hp⟩ := Option.isSome_iff_exists.mp hpath
    unfold Listing.get
    rw [hp]
    cases outcome <;>
      simp [hax, Listing.settleSuccess, Listing.settleFailure, Listing.loaded]

/-- Concrete instantiation of claim C4 on a fresh configured state. -/
def c4State : ListingState :=
  { initialState with apiPath := some "/api/items", axiosConfigured := true }

theorem claim4_witness :
    ((Listing.inflightState c4State .noArg).isLoading = !c4State.hasLoadedOnce
      ∧ (Listing.inflightState c4State .noArg).isUpdating = c4State.hasLoadedOnce
      ∧ (Listing.inflightState c4State .noArg).isLoading
          = !(Listing.inflightState c4State .noArg).isUpdating)
    ∧ ((Listing.get c4State .noArg (.success ⟨none, none⟩)).state.isLoading = false
      ∧ (Listing.get c4State .noArg (.success ⟨none, none⟩)).state.isUpdating = false) := by
  have h := claim4_loading_flags c4State .noArg rfl rfl
  exact ⟨h.1, h.2 (.success ⟨none, none⟩)⟩

/-- Claim C5 (amended): hasLoadedOnce flips from false to true exactly on a
fetch whose transport GET succeeds (endpoint resolved, transport configured,
outcome success); it is monotone, so no later fetch, in particular no later
transport error, ever resets it. A fetch that resolves normally after a
transport rejection leaves the flag unchanged, which is the correction to
the claim as stated. -/
theorem claim5_hasLoadedOnce_amended (st : ListingState) (arg : GetArg)
    (outcome : FetchOutcome) :
    (Listing.get st arg outcome).state.hasLoadedOnce
      = (st.hasLoadedOnce
         || ((Listing.effectivePath st arg).isSome && st.axiosConfigured && outcome.isSuccess))
    ∧ (st.hasLoadedOnce = true → (Listing.get st arg outcome).state.hasLoadedOnce = true) := by
  obtain ⟨f, a, p, hsync⟩ := syncQuery_shape st (Listing.effectiveRouteQuery st arg)
  have hfl : (Listing.inflightState st arg).hasLoadedOnce = st.hasLoadedOnce := by
    unfold Listing.inflightState
    rw [hsync]
    unfold Listing.loading
    cases hh : st.hasLoadedOnce <;> simp [hh]
  have hmain : (Listing.get st arg outcome).state.hasLoadedOnce
      = (st.hasLoadedOnce
         || ((Listing.effectivePath st arg).isSome && st.axiosConfigured && outcome.isSuccess)) := by
    cases hp : Listing.effectivePath st arg with
    | none =>
      unfold Listing.get
      rw [hp]
      simp
    | some p0 =>
      unfold Listing.get
      rw [hp]
      cases hax : st.axiosConfigured
      · simp [Listing.loaded, hfl]
      · cases outcome <;>
          simp [Listing.settleSuccess, Listing.settleFailure, Listing.loaded, hfl,
            FetchOutcome.isSuccess]
  exact ⟨hmain, fun h => by rw [hmain, h]; simp⟩

/-- State for the counterexample to claim C5 as stated: a fresh, fully
configured listing that has never loaded. -/
def c5State : ListingState :=
  { initialState with apiPath := some "/api/items", axiosConfigured := true }

/-- A transport rejection carrying HTTP status 500. -/
def c5Err : AxiosErr := ⟨some ⟨some 500, none⟩⟩

/-- Counterexample to claim C5 as stated: the very first fetch resolves
normally (nothing thrown, so no ConfigurationError) and yet hasLoadedOnce
stays false, because the transport rejected; the claim as stated predicts
the flag flips on the first fetch that resolves without a
ConfigurationError. -/
theorem claim5_counterexample :
    c5State.hasLoadedOnce = false
    ∧ (Listing.get c5State .noArg (.failure c5Err)).thrown = none
    ∧ (Listing.get c5State .noArg (.failure c5Err)).state.hasLoadedOnce = false := by
  exact ⟨rfl, rfl, rfl⟩

/-- Claim C2 (amended): for every fetch whose transport rejects (endpoint
resolved, transport configured), the fetch promise resolves, and the stored
error is the default message passed through the configured error handler
(identity when none): the fixed permission message for status 403, else the
server-supplied message when present and non-empty, else the generic
fallback. The correction to the claim as stated: a present but empty server
message falls back to the generic message. -/
theorem claim2_fetch_error_amended (st : ListingState) (arg : GetArg) (e : AxiosErr)
    (hpath : (Listing.effectivePath st arg).isSome = true)
    (hax : st.axiosConfigured = true) :
    (Listing.get st arg (.failure e)).thrown = none
    ∧ (Listing.get st arg (.failure e)).state.error
        = Listing.applyErrorHandler st.errorHandler (Listing.defaultErrorMessage e)
            (Listing.errStatus e)
    ∧ (Listing.errStatus e = some 403 →
        Listing.defaultErrorMessage e = Listing.permissionErrorMessage)
    ∧ (∀ m, Listing.errStatus e ≠ some 403 → Listing.errMessage e = some m → m ≠ "" →
        Listing.defaultErrorMessage e = m)
    ∧ (Listing.errStatus e ≠ some 403 →
        (Listing.errMessage e = none ∨ Listing.errMessage e = some "") →
        Listing.defaultErrorMessage e = Listing.genericLoadErrorMessage) := by
  obtain ⟨p0, hp⟩ := Option.isSome_iff_exists.mp hpath
  obtain ⟨f, a, p, hsync⟩ := syncQuery_shape st (Listing.effectiveRouteQuery st arg)
  have hEH : (Listing.inflightState st arg).errorHandler = st.errorHandler := by
    unfold Listing.inflightState
    rw [hsync]
    unfold Listing.loading
    cases hh : st.hasLoadedOnce <;> simp [hh]
  refine ⟨?_, ?_, ?_, ?_, ?_⟩
  · unfold Listing.get
    rw [hp]
    simp [hax]
  · unfold Listing.get
    rw [hp]
    simp [hax, Listing.settleFailure, Listing.loaded, hEH]
  · intro h403
    unfold Listing.defaultErrorMessage
    rw [if_pos h403]
  · intro m hne hm hne2
    unfold Listing.defaultErrorMessage
    rw [if_neg hne, hm]
    simp [hne2]
  · intro hne hm
    unfold Listing.defaultErrorMessage
    rw [if_neg hne]
    rcases hm with hm | hm
    · rw [hm]
    · rw [hm]
      simp

/-- State for the claim C2 scenarios: configured transport and endpoint, no
custom error handler. -/
def c2State : ListingState :=
  { initialState with apiPath := some "/api/items", axiosConfigured := true }

/-- A transport rejection with status 403 and no body. -/
def c2Err403 : AxiosErr := ⟨some ⟨some 403, none⟩⟩

theorem claim2_witness :
    (Listing.get c2State .noArg (.failure c2Err403)).thrown = none
    ∧ (Listing.get c2State .noArg (.failure c2Err403)).state.error
        = some Listing.permissionErrorMessage := by
  have h := claim2_fetch_error_amended c2State .noArg c2Err403 rfl rfl
  exact ⟨h.1, h.2.1.trans (by rfl)⟩

/-- A transport rejection with status 500 and a present but empty server
message. -/
def c2ErrEmptyMsg : AxiosErr := ⟨some ⟨some 500, some ⟨some ""⟩⟩⟩

/-- Counterexample to claim C2 as stated: the server message is present
(exactly the empty string), yet the stored error is the generic fallback
and not the server-supplied message. -/
theorem claim2_counterexample :
    Listing.errMessage c2ErrEmptyMsg = some ""
    ∧ (Listing.get c2State .noArg (.failure c2ErrEmptyMsg)).state.error
        = some Listing.genericLoadErrorMessage
    ∧ (Listing.get c2State .noArg (.failure c2ErrEmptyMsg)).state.error ≠ some "" := by
  refine ⟨rfl, rfl, ?_⟩
  intro h
  have h2 : Listing.genericLoadErrorMessage = "" := by
    have h3 : (Listing.get c2State .noArg (.failure c2ErrEmptyMsg)).state.error
        = some Listing.genericLoadErrorMessage := rfl
    rw [h3] at h
    exact Option.some.inj h
  exact absurd h2 (by decide)

/-- Claim C6 (amended): during query synchronisation, for the filter key
literally named status an incoming query value is written into the filter
store only if its stringified form is exactly verified or unverified, any
other value leaving the status slots (canonical and legacy) unchanged,
silently; every other filter key accepts any stringified
(first-element-of-array if array-valued) query value into its slot whenever
that slot is writable: a canonical filters entry, or a legacy ref cell.
The correction to the claim as stated: a legacy plain-scalar attribute is
not writable and is left unchanged. -/
theorem claim6_status_whitelist (st : ListingState) (rq : List (String × QVal)) :
    (∀ qv : QVal, lookupAssoc rq "status" = some qv →
      Listing.stringOfQueryVal qv ≠ "verified" →
      Listing.stringOfQueryVal qv ≠ "unverified" →
      lookupAssoc (Listing.syncQuery st rq).filters "status"
          = lookupAssoc st.filters "status"
      ∧ lookupAssoc (Listing.syncQuery st rq).filterAttributes "status"
          = lookupAssoc st.filterAttributes "status")
    ∧ (∀ k qv, lookupAssoc rq k = some qv → qv ≠ QVal.base QBase.jnull →
        (k = "status" → Listing.stringOfQueryVal qv = "verified"
          ∨ Listing.stringOfQueryVal qv = "unverified") →
        k ∈ assocKeys st.filters →
        lookupAssoc (Listing.syncQuery st rq).filters k
          = some (some (.str (Listing.stringOfQueryVal qv))))
    ∧ (∀ k qv w, lookupAssoc rq k = some qv → qv ≠ QVal.base QBase.jnull →
        (k = "status" → Listing.stringOfQueryVal qv = "verified"
          ∨ Listing.stringOfQueryVal qv = "unverified") →
        st.filters = [] →
        lookupAssoc st.filterAttributes k = some (.cell w) →
        lookupAssoc (Listing.syncQuery st rq).filterAttributes k
          = some (.cell (some (.str (Listing.stringOfQueryVal qv))))) := by
  have hne : ∀ {k2 : String} {qv2 : QVal}, lookupAssoc rq k2 = some qv2 → rq ≠ [] := by
    intro k2 qv2 hq2 hrq
    subst hrq
    simp [lookupAssoc] at hq2
  refine ⟨?_, ?_, ?_⟩
  · intro qv hq h1 h2
    have hfe := syncQuery_filters_eq st rq (hne hq)
    have hfold := foldl_syncKey_status_invalid rq hq h1 h2 (Listing.filterKeysOf st) st
    constructor
    · rw [hfe.1]
      exact hfold.1
    · rw [hfe.2]
      exact hfold.2
  · intro k qv hq hnn himp hmem
    have hfe := syncQuery_filters_eq st rq (hne hq)
    have hstat : ¬(k = "status" ∧ Listing.stringOfQueryVal qv ≠ "verified"
        ∧ Listing.stringOfQueryVal qv ≠ "unverified") := by
      rintro ⟨hks, hv1, hv2⟩
      rcases himp hks with h | h
      · exact hv1 h
      · exact hv2 h
    have hfne : st.filters ≠ [] := by
      intro h0
      rw [h0] at hmem
      simp [assocKeys] at hmem
    have hkeys : Listing.filterKeysOf st = assocKeys st.filters := by
      unfold Listing.filterKeysOf
      rw [if_pos hfne]
    rw [hfe.1, hkeys]
    exact foldl_syncKey_write_canonical rq hq hnn hstat _ st hmem hmem
  · intro k qv w hq hnn himp hfemp hcell
    have hfe := syncQuery_filters_eq st rq (hne hq)
    have hstat : ¬(k = "status" ∧ Listing.stringOfQueryVal qv ≠ "verified"
        ∧ Listing.stringOfQueryVal qv ≠ "unverified") := by
      rintro ⟨hks, hv1, hv2⟩
      rcases himp hks with h | h
      · exact hv1 h
      · exact hv2 h
    have hkeys : Listing.filterKeysOf st = assocKeys st.filterAttributes := by
      unfold Listing.filterKeysOf
      rw [if_neg (by simp [hfemp])]
    have hnmem : k ∉ assocKeys st.filters := by
      rw [hfemp]
      simp [assocKeys]
    have hamem : k ∈ assocKeys st.filterAttributes := mem_assocKeys_of_lookup hcell
    rw [hfe.2, hkeys]
    exact foldl_syncKey_write_cell rq hq hnn hstat _ st hamem hnmem hcell

/-- Canonical-style state for the claim C6 scenarios. -/
def c6WitState : ListingState :=
  { initialState with
    filters := [("status", some (.str "verified")), ("q", some (.str "a"))] }

/-- External query carrying an invalid status value and a plain value. -/
def c6WitQuery : List (String × QVal) :=
  [("status", .base (.str "bogus")), ("q", .base (.str "new"))]

/-- External query carrying a valid status value. -/
def c6WitQuery2 : List (String × QVal) :=
  [("status", .base (.str "unverified"))]

/-- Legacy-style state whose filter attribute is a writable ref cell. -/
def c6CellState : ListingState :=
  { initialState with filterAttributes := [("q", .cell (some (.str "old")))] }

theorem claim6_witness :
    (lookupAssoc (Listing.syncQuery c6WitState c6WitQuery).filters "status"
        = lookupAssoc c6WitState.filters "status"
      ∧ lookupAssoc (Listing.syncQuery c6WitState c6WitQuery).filterAttributes "status"
        = lookupAssoc c6WitState.filterAttributes "status")
    ∧ lookupAssoc (Listing.syncQuery c6WitState c6WitQuery).filters "q"
        = some (some (.str "new"))
    ∧ lookupAssoc (Listing.syncQuery c6WitState c6WitQuery2).filters "status"
        = some (some (.str "unverified"))
    ∧ lookupAssoc (Listing.syncQuery c6CellState c6WitQuery).filterAttributes "q"
        = some (.cell (some (.str "new"))) := by
  have h := claim6_status_whitelist c6WitState c6WitQuery
  have h2 := claim6_status_whitelist c6WitState c6WitQuery2
  have h3 := claim6_status_whitelist c6CellState c6WitQuery
  refine ⟨h.1 (.base (.str "bogus")) rfl (by decide) (by decide), ?_, ?_, ?_⟩
  · exact h.2.1 "q" (.base (.str "new")) rfl (by decide)
      (fun hk => absurd hk (by decide)) (by decide)
  · exact h2.2.1 "status" (.base (.str "unverified")) rfl (by decide)
      (fun _ => Or.inr rfl) (by decide)
  · exact h3.2.2 "q" (.base (.str "new")) (some (.str "old")) rfl (by decide)
      (fun hk => absurd hk (by decide)) rfl rfl

/-- Legacy-style state whose filter attribute is a plain scalar, not a ref
cell. -/
def c6ScalarState : ListingState :=
  { initialState with filterAttributes := [("q", .scalar (some (.str "old")))] }

/-- External query offering a new value for the scalar attribute. -/
def c6ScalarQuery : List (String × QVal) :=
  [("q", .base (.str "new"))]

/-- Counterexample to claim C6 as stated: the non-status filter key q does
not accept the stringified query value; the whole synchronisation is the
identity because the legacy attribute is a plain scalar, so the value new
is stored nowhere. -/
theorem claim6_counterexample :
    Listing.syncQuery c6ScalarState c6ScalarQuery = c6ScalarState
    ∧ lookupAssoc (Listing.syncQuery c6ScalarState c6ScalarQuery).filterAttributes "q"
        = some (.scalar (some (.str "old")))
    ∧ lookupAssoc (Listing.syncQuery c6ScalarState c6ScalarQuery).filters "q" = none := by
  exact ⟨rfl, rfl, rfl⟩

/-- An error observed by the catch block of delete: a transport rejection,
the thrown missing-axios configuration error, or the missing-endpoint
configuration error thrown by a nested refetch (get) invoked inside
delete with no truthy apiPath configured (line 475 reached via lines
693/742). -/
inductive DelErr where
  | transport (e : AxiosErr)
  | axiosMissing
  | pathMissing
deriving DecidableEq, Repr

/-- Observable calls made by delete, in order: the transport DELETE, the
onSuccess and onError callback invocations, the router URL push, and the
invocation of a refetch (get) that will use the given current page. The
nested refetch is recorded as an invocation event; its own effects are
modelled by Listing.get. -/
inductive Ev where
  | transportDelete (path : String)
  | onSuccessCall (id : PVal)
  | onErrorCall (e : DelErr) (status : Option Int)
  | urlPush
  | fetchCall (page : Int)
deriving DecidableEq, Repr

/-- The optional config of delete: key (default id), refresh (default
true), and the two callbacks, modelled by presence flags since their
behaviour is external. -/
structure DeleteCfg where
  key : Option String
  refresh : Option Bool
  hasOnSuccess : Bool
  hasOnError : Bool
deriving DecidableEq, Repr

/-- The three call shapes of delete (lines 620-637): (path, id, config?),
(path, config-with-id), (config-with-id). In the first shape the id slot
may be undefined or null, which the code rejects. -/
inductive DeleteArg where
  | pathId (path : String) (id : Option PVal) (cfg : Option DeleteCfg)
  | pathCfg (path : String) (id : PVal) (cfg : DeleteCfg)
  | cfgOnly (id : PVal) (cfg : DeleteCfg)
deriving DecidableEq, Repr

/-- Errors delete can throw: the missing-id argument error, the
missing-endpoint configuration error, and a rethrown caught error. -/
inductive DelThrow where
  | idMissing
  | pathMissing
  | rethrown (e : DelErr)
deriving DecidableEq, Repr

/-- The fully resolved delete call: target path, id, match key, refresh
flag and callback presence (lines 638-676). -/
structure ResolvedDelete where
  path : String
  id : PVal
  key : String
  refresh : Bool
  hasOnSuccess : Bool
  hasOnError : Bool
deriving DecidableEq, Repr

/-- Settled outcome of the awaited transport DELETE call. -/
inductive DeleteOutcome where
  | success
  | failure (e : AxiosErr)
deriving DecidableEq, Repr

/-- Result of one delete call: final state, the ordered observable calls,
and the thrown error if the promise rejected. -/
structure DeleteResult where
  state : ListingState
  events : List Ev
  thrown : Option DelThrow

namespace Listing

/-- HTTP status extraction of the delete catch block (lines 696-699). -/
def delErrStatus : DelErr → Option Int
  | .transport e => errStatus e
  | .axiosMissing => none
  | .pathMissing => none

/-- Argument resolution of delete (lines 638-676). -/
def resolveDelete (st : ListingState) : DeleteArg → Except DelThrow ResolvedDelete
  | .pathId p oid ocfg =>
    match oid with
    | none => .error .idMissing
    | some id =>
      let cfg := ocfg.getD ⟨none, none, false, false⟩
      .ok ⟨p, id, cfg.key.getD "id", cfg.refresh.getD true, cfg.hasOnSuccess, cfg.hasOnError⟩
  | .pathCfg p id cfg =>
    .ok ⟨p, id, cfg.key.getD "id", cfg.refresh.getD true, cfg.hasOnSuccess, cfg.hasOnError⟩
  | .cfgOnly id cfg =>
    match st.apiPath with
    | none => .error .pathMissing
    | some base =>
      if base = "" then .error .pathMissing
      else
        .ok ⟨base ++ "/" ++ jsString id, id, cfg.key.getD "id", cfg.refresh.getD true,
          cfg.hasOnSuccess, cfg.hasOnError⟩

/-- Model of Listing.remove (lines 607-610): drop every item whose field at
the key strictly equals the id, and decrement total, floored at zero. -/
def remove (st : ListingState) (id : PVal) (key : String) : ListingState :=
  { st with
    data := st.data.filter (fun item => decide (lookupAssoc item key ≠ some (IVal.pv id))),
    total := max 0 (st.total - 1) }

/-- The perPage value after goToPage: overwritten only when given. -/
def goPerPage (st : ListingState) (perPageArg : Option Int) : Int :=
  match perPageArg with
  | some pp => pp
  | none => st.perPage

/-- Model of Listing.goToPage (lines 732-744): set the page (and per-page
when given); unless autoLoad is explicitly false, when an endpoint or a
router is configured, push the URL and invoke a fetch of the new page. The
invoked fetch is recorded as an event; its own effects are modelled by
Listing.get. The shouldAutoLoad guard reads apiPath and the router, which
the page update leaves untouched, so it is stated on the incoming state. -/
def goToPage (st : ListingState) (page : Int) (perPageArg : Option Int)
    (autoLoad : Option Bool) : ListingState × List Ev :=
  if autoLoad ≠ some false ∧ (st.apiPath ≠ none ∨ st.hasRouter = true) then
    ({ st with currentPage := page, perPage := goPerPage st perPageArg },
      [.urlPush, .fetchCall page])
  else ({ st with currentPage := page, perPage := goPerPage st perPageArg }, [])

/-- The catch block of delete (lines 695-708): extract the status, invoke
onError and resolve when configured, else rethrow the original error. -/
def handleDeleteError (st : ListingState) (r : ResolvedDelete) (e : DelErr)
    (ev : List Ev) : DeleteResult :=
  if r.hasOnError then ⟨st, ev ++ [.onErrorCall e (delErrStatus e)], none⟩
  else ⟨st, ev, some (.rethrown e)⟩

/-- Model of Listing.delete (lines 620-709). On success the onSuccess
callback fires before the local removal and before any refetch; then, when
the local page became empty above page one, the controller navigates to the
previous page, else refetches the current page when refresh is set. The
nested goToPage and get invocations are recorded as events. A nested get
that is invoked (goToPage auto-loads on a non-null apiPath or a router;
the refresh branch always calls get) with no truthy apiPath (null or
empty string, line 475) throws its configuration error inside delete's
try, and the catch at line 695 routes it through the same error handling
as a transport rejection, with no extractable HTTP status. -/
def delete (st : ListingState) (arg : DeleteArg) (outcome : DeleteOutcome) : DeleteResult :=
  match resolveDelete st arg with
  | .error t => ⟨st, [], some t⟩
  | .ok r =>
    if st.axiosConfigured then
      match outcome with
      | .failure e => handleDeleteError st r (.transport e) [.transportDelete r.path]
      | .success =>
        let st1 := remove st r.id r.key
        let ev0 := Ev.transportDelete r.path ::
          (if r.hasOnSuccess then [Ev.onSuccessCall r.id] else [])
        if st1.data = [] ∧ st1.currentPage > 1 then
          let pr := goToPage st1 (st1.currentPage - 1) none none
          if (st1.apiPath ≠ none ∨ st1.hasRouter = true)
              ∧ effectivePath st1 .noArg = none then
            handleDeleteError pr.1 r .pathMissing (ev0 ++ pr.2)
          else ⟨pr.1, ev0 ++ pr.2, none⟩
        else if r.refresh then
          if effectivePath st1 .noArg = none then
            handleDeleteError st1 r .pathMissing (ev0 ++ [.fetchCall st1.currentPage])
          else ⟨st1, ev0 ++ [.fetchCall st1.currentPage], none⟩
        else ⟨st1, ev0, none⟩
    else handleDeleteError st r .axiosMissing []

/-- Model of Listing.reset (lines 928-941). -/
def reset (st : ListingState) : ListingState :=
  { loaded { st with data := [] } with
    error := none, currentPage := 1, perPage := 15, total := 0,
    filterValues := [], activeFilters := [] }

end Listing

/-- Claim C8: for every delete whose transport call rejects, with an
onError callback configured the callback is invoked with the error and the
extracted HTTP status and the delete resolves normally (the controller is
the callback's third argument in the code, which the event model leaves
implicit); with no onError callback the original error is rethrown
unmodified. -/
theorem claim8_delete_error (st : ListingState) (arg : DeleteArg) (e : AxiosErr)
    (r : ResolvedDelete)
    (hres : Listing.resolveDelete st arg = .ok r)
    (hax : st.axiosConfigured = true) :
    (r.hasOnError = true →
      Listing.delete st arg (.failure e)
        = ⟨st, [.transportDelete r.path,
            .onErrorCall (.transport e) (Listing.errStatus e)], none⟩)
    ∧ (r.hasOnError = false →
      Listing.delete st arg (.failure e)
        = ⟨st, [.transportDelete r.path], some (.rethrown (.transport e))⟩) := by
  constructor <;> intro hoe <;>
    simp [Listing.delete, hres, hax, Listing.handleDeleteError, hoe, Listing.delErrStatus]

/-- State and inputs instantiating claim C8. -/
def c8State : ListingState := { initialState with axiosConfigured := true }

def c8Err : AxiosErr := ⟨some ⟨some 404, none⟩⟩

def c8CfgOn : DeleteCfg := ⟨none, none, false, true⟩

def c8CfgOff : DeleteCfg := ⟨none, none, false, false⟩

theorem claim8_witness :
    Listing.delete c8State (.pathCfg "/api/items" (.num 7) c8CfgOn) (.failure c8Err)
      = ⟨c8State, [.transportDelete "/api/items",
          .onErrorCall (.transport c8Err) (some 404)], none⟩
    ∧ Listing.delete c8State (.pathCfg "/api/items" (.num 7) c8CfgOff) (.failure c8Err)
      = ⟨c8State, [.transportDelete "/api/items"], some (.rethrown (.transport c8Err))⟩ := by
  have h1 := claim8_delete_error c8State (.pathCfg "/api/items" (.num 7) c8CfgOn) c8Err
    ⟨"/api/items", .num 7, "id", true, false, true⟩ rfl rfl
  have h2 := claim8_delete_error c8State (.pathCfg "/api/items" (.num 7) c8CfgOff) c8Err
    ⟨"/api/items", .num 7, "id", true, false, false⟩ rfl rfl
  exact ⟨h1.1 rfl, h2.2 rfl⟩


/-- Claim C3 (amended): for every successful delete: the onSuccess
callback, when configured, is invoked before any refetch; all items whose
field at the key strictly equals the id are removed locally and total is
decremented by one, floored at zero; then, when the local item list became
empty and the current page is above one, the controller navigates to the
previous page and this triggers a fetch of that page provided an endpoint
or a router is configured (the correction to the claim as stated, which
promises the fetch unconditionally); otherwise, when refresh is set (the
default), a refetch of the current page is invoked. The delete resolves
with nothing thrown, except when an invoked refetch finds no truthy
endpoint configured (apiPath null or empty string): its configuration
error is caught by delete's error handling, which invokes onError with no
extractable status (and resolves) when configured, else rethrows it. -/
theorem claim3_delete_success_amended (st : ListingState) (arg : DeleteArg)
    (r : ResolvedDelete)
    (hres : Listing.resolveDelete st arg = .ok r)
    (hax : st.axiosConfigured = true) :
    (Listing.delete st arg .success).state.data
        = st.data.filter (fun item => decide (lookupAssoc item r.key ≠ some (IVal.pv r.id)))
    ∧ (Listing.delete st arg .success).state.total = max 0 (st.total - 1)
    ∧ (r.hasOnSuccess = true → ∃ pre post,
        (Listing.delete st arg .success).events = pre ++ Ev.onSuccessCall r.id :: post
        ∧ ∀ ev2 ∈ pre, ∀ pg, ev2 ≠ Ev.fetchCall pg)
    ∧ (((Listing.remove st r.id r.key).data = [] ∧ st.currentPage > 1) →
        (Listing.delete st arg .success).state.currentPage = st.currentPage - 1
        ∧ ((st.apiPath ≠ none ∨ st.hasRouter = true) →
            Ev.fetchCall (st.currentPage - 1) ∈ (Listing.delete st arg .success).events))
    ∧ (¬((Listing.remove st r.id r.key).data = [] ∧ st.currentPage > 1) →
        (Listing.delete st arg .success).state.currentPage = st.currentPage
        ∧ (r.refresh = true →
            Ev.fetchCall st.currentPage ∈ (Listing.delete st arg .success).events))
    ∧ (Listing.delete st arg .success).thrown
        = (if Listing.effectivePath (Listing.remove st r.id r.key) .noArg = none
              ∧ (((Listing.remove st r.id r.key).data = [] ∧ st.currentPage > 1)
                  ∧ (st.apiPath ≠ none ∨ st.hasRouter = true)
                ∨ ¬((Listing.remove st r.id r.key).data = [] ∧ st.currentPage > 1)
                  ∧ r.refresh = true)
              ∧ r.hasOnError = false
           then some (.rethrown .pathMissing) else none)
    ∧ (Listing.effectivePath (Listing.remove st r.id r.key) .noArg = none
        ∧ (((Listing.remove st r.id r.key).data = [] ∧ st.currentPage > 1)
            ∧ (st.apiPath ≠ none ∨ st.hasRouter = true)
          ∨ ¬((Listing.remove st r.id r.key).data = [] ∧ st.currentPage > 1)
            ∧ r.refresh = true)
        ∧ r.hasOnError = true →
        Ev.onErrorCall DelErr.pathMissing none ∈ (Listing.delete st arg .success).events) := by
  have hdel : Listing.delete st arg .success
      = (if (Listing.remove st r.id r.key).data = []
            ∧ (Listing.remove st r.id r.key).currentPage > 1 then
          if ((Listing.remove st r.id r.key).apiPath ≠ none
              ∨ (Listing.remove st r.id r.key).hasRouter = true)
              ∧ Listing.effectivePath (Listing.remove st r.id r.key) .noArg = none then
            Listing.handleDeleteError
              (Listing.goToPage (Listing.remove st r.id r.key)
                ((Listing.remove st r.id r.key).currentPage - 1) none none).1
              r .pathMissing
              ((Ev.transportDelete r.path ::
                (if r.hasOnSuccess then [Ev.onSuccessCall r.id] else []))
               ++ (Listing.goToPage (Listing.remove st r.id r.key)
                ((Listing.remove st r.id r.key).currentPage - 1) none none).2)
          else
            ⟨(Listing.goToPage (Listing.remove st r.id r.key)
                ((Listing.remove st r.id r.key).currentPage - 1) none none).1,
              (Ev.transportDelete r.path ::
                (if r.hasOnSuccess then [Ev.onSuccessCall r.id] else []))
              ++ (Listing.goToPage (Listing.remove st r.id r.key)
                ((Listing.remove st r.id r.key).currentPage - 1) none none).2, none⟩
        else if r.refresh then
          if Listing.effectivePath (Listing.remove st r.id r.key) .noArg = none then
            Listing.handleDeleteError (Listing.remove st r.id r.key) r .pathMissing
              ((Ev.transportDelete r.path ::
                (if r.hasOnSuccess then [Ev.onSuccessCall r.id] else []))
               ++ [.fetchCall (Listing.remove st r.id r.key).currentPage])
          else
            ⟨Listing.remove st r.id r.key, (Ev.transportDelete r.path ::
              (if r.hasOnSuccess then [Ev.onSuccessCall r.id] else []))
              ++ [.fetchCall (Listing.remove st r.id r.key).currentPage], none⟩
        else ⟨Listing.remove st r.id r.key, Ev.transportDelete r.path ::
            (if r.hasOnSuccess then [Ev.onSuccessCall r.id] else []), none⟩) := by
    unfold Listing.delete
    rw [hres]
    simp only [hax, if_true]
  rw [hdel]
  by_cases hbr : (Listing.remove st r.id r.key).data = []
      ∧ (Listing.remove st r.id r.key).currentPage > 1
  · rw [if_pos hbr]
    by_cases hauto : (Listing.remove st r.id r.key).apiPath ≠ none
        ∨ (Listing.remove st r.id r.key).hasRouter = true
    · have hgo : Listing.goToPage (Listing.remove st r.id r.key)
          ((Listing.remove st r.id r.key).currentPage - 1) none none
          = ({ Listing.remove st r.id r.key with
                currentPage := (Listing.remove st r.id r.key).currentPage - 1,
                perPage := Listing.goPerPage (Listing.remove st r.id r.key) none },
             [Ev.urlPush, Ev.fetchCall ((Listing.remove st r.id r.key).currentPage - 1)]) := by
        unfold Listing.goToPage
        rw [if_pos ⟨by simp, hauto⟩]
      by_cases heff : Listing.effectivePath (Listing.remove st r.id r.key) .noArg = none
      · rw [if_pos ⟨hauto, heff⟩, hgo]
        unfold Listing.handleDeleteError
        by_cases hoe : r.hasOnError = true
        · rw [if_pos hoe]
          refine ⟨rfl, rfl, ?_, ?_, ?_, ?_, ?_⟩
          · intro hos
            rw [hos]
            refine ⟨[Ev.transportDelete r.path],
              [Ev.urlPush, Ev.fetchCall ((Listing.remove st r.id r.key).currentPage - 1),
                Ev.onErrorCall DelErr.pathMissing none], rfl, ?_⟩
            intro ev2 hev pg
            simp only [List.mem_singleton] at hev
            rw [hev]
            intro hcon
            exact Ev.noConfusion hcon
          · intro _
            exact ⟨rfl, fun _ => by simp [Listing.remove]⟩
          · intro hneg
            exact absurd hbr hneg
          · exact (if_neg (fun hc => by rw [hoe] at hc; exact Bool.noConfusion hc.2.2)).symm
          · intro _
            simp [Listing.delErrStatus]
        · rw [if_neg hoe]
          have hoe2 : r.hasOnError = false := by
            revert hoe
            cases r.hasOnError <;> simp
          have hC : Listing.effectivePath (Listing.remove st r.id r.key) .noArg = none
              ∧ (((Listing.remove st r.id r.key).data = [] ∧ st.currentPage > 1)
                  ∧ (st.apiPath ≠ none ∨ st.hasRouter = true)
                ∨ ¬((Listing.remove st r.id r.key).data = [] ∧ st.currentPage > 1)
                  ∧ r.refresh = true)
              ∧ r.hasOnError = false := ⟨heff, Or.inl ⟨hbr, hauto⟩, hoe2⟩
          refine ⟨rfl, rfl, ?_, ?_, ?_, ?_, ?_⟩
          · intro hos
            rw [hos]
            refine ⟨[Ev.transportDelete r.path],
              [Ev.urlPush, Ev.fetchCall ((Listing.remove st r.id r.key).currentPage - 1)],
              rfl, ?_⟩
            intro ev2 hev pg
            simp only [List.mem_singleton] at hev
            rw [hev]
            intro hcon
            exact Ev.noConfusion hcon
          · intro _
            exact ⟨rfl, fun _ => by simp [Listing.remove]⟩
          · intro hneg
            exact absurd hbr hneg
          · exact (if_pos hC).symm
          · intro hg
            rw [hoe2] at hg
            exact Bool.noConfusion hg.2.2
      · rw [if_neg (fun hand => heff hand.2), hgo]
        refine ⟨rfl, rfl, ?_, ?_, ?_, ?_, ?_⟩
        · intro hos
          rw [hos]
          refine ⟨[Ev.transportDelete r.path],
            [Ev.urlPush, Ev.fetchCall ((Listing.remove st r.id r.key).currentPage - 1)],
            rfl, ?_⟩
          intro ev2 hev pg
          simp only [List.mem_singleton] at hev
          rw [hev]
          intro hcon
          exact Ev.noConfusion hcon
        · intro _
          exact ⟨rfl, fun _ => by simp [Listing.remove]⟩
        · intro hneg
          exact absurd hbr hneg
        · exact (if_neg (fun hc => heff hc.1)).symm
        · intro hg
          exact absurd hg.1 heff
    · have hgo : Listing.goToPage (Listing.remove st r.id r.key)
          ((Listing.remove st r.id r.key).currentPage - 1) none none
          = ({ Listing.remove st r.id r.key with
                currentPage := (Listing.remove st r.id r.key).currentPage - 1,
                perPage := Listing.goPerPage (Listing.remove st r.id r.key) none },
             []) := by
        unfold Listing.goToPage
        rw [if_neg (fun hand => hauto hand.2)]
      rw [if_neg (fun hand => hauto hand.1), hgo]
      refine ⟨rfl, rfl, ?_, ?_, ?_, ?_, ?_⟩
      · intro hos
        rw [hos]
        refine ⟨[Ev.transportDelete r.path], [], rfl, ?_⟩
        intro ev2 hev pg
        simp only [List.mem_singleton] at hev
        rw [hev]
        intro hcon
        exact Ev.noConfusion hcon
      · intro _
        exact ⟨rfl, fun hconf => absurd hconf hauto⟩
      · intro hneg
        exact absurd hbr hneg
      · exact (if_neg (fun hc =>
          hc.2.1.elim (fun hl => hauto hl.2) (fun hr => hr.1 hbr))).symm
      · intro hg
        exact hg.2.1.elim (fun hl => absurd hl.2 hauto) (fun hr => absurd hbr hr.1)
  · rw [if_neg hbr]
    by_cases href : r.refresh = true
    · rw [if_pos href]
      by_cases heff : Listing.effectivePath (Listing.remove st r.id r.key) .noArg = none
      · rw [if_pos heff]
        unfold Listing.handleDeleteError
        by_cases hoe : r.hasOnError = true
        · rw [if_pos hoe]
          refine ⟨rfl, rfl, ?_, ?_, ?_, ?_, ?_⟩
          · intro hos
            rw [hos]
            refine ⟨[Ev.transportDelete r.path],
              [Ev.fetchCall (Listing.remove st r.id r.key).currentPage,
                Ev.onErrorCall DelErr.pathMissing none], rfl, ?_⟩
            intro ev2 hev pg
            simp only [List.mem_singleton] at hev
            rw [hev]
            intro hcon
            exact Ev.noConfusion hcon
          · intro hpos
            exact absurd hpos hbr
          · intro _
            exact ⟨rfl, fun _ => by simp [Listing.remove]⟩
          · exact (if_neg (fun hc => by rw [hoe] at hc; exact Bool.noConfusion hc.2.2)).symm
          · intro _
            simp [Listing.delErrStatus]
        · rw [if_neg hoe]
          have hoe2 : r.hasOnError = false := by
            revert hoe
            cases r.hasOnError <;> simp
          have hC : Listing.effectivePath (Listing.remove st r.id r.key) .noArg = none
              ∧ (((Listing.remove st r.id r.key).data = [] ∧ st.currentPage > 1)
                  ∧ (st.apiPath ≠ none ∨ st.hasRouter = true)
                ∨ ¬((Listing.remove st r.id r.key).data = [] ∧ st.currentPage > 1)
                  ∧ r.refresh = true)
              ∧ r.hasOnError = false := ⟨heff, Or.inr ⟨hbr, href⟩, hoe2⟩
          refine ⟨rfl, rfl, ?_, ?_, ?_, ?_, ?_⟩
          · intro hos
            rw [hos]
            refine ⟨[Ev.transportDelete r.path],
              [Ev.fetchCall (Listing.remove st r.id r.key).currentPage], rfl, ?_⟩
            intro ev2 hev pg
            simp only [List.mem_singleton] at hev
            rw [hev]
            intro hcon
            exact Ev.noConfusion hcon
          · intro hpos
            exact absurd hpos hbr
          · intro _
            exact ⟨rfl, fun _ => by simp [Listing.remove]⟩
          · exact (if_pos hC).symm
          · intro hg
            rw [hoe2] at hg
            exact Bool.noConfusion hg.2.2
      · rw [if_neg heff]
        refine ⟨rfl, rfl, ?_, ?_, ?_, ?_, ?_⟩
        · intro hos
          rw [hos]
          refine ⟨[Ev.transportDelete r.path],
            [Ev.fetchCall (Listing.remove st r.id r.key).currentPage], rfl, ?_⟩
          intro ev2 hev pg
          simp only [List.mem_singleton] at hev
          rw [hev]
          intro hcon
          exact Ev.noConfusion hcon
        · intro hpos
          exact absurd hpos hbr
        · intro _
          exact ⟨rfl, fun _ => by simp [Listing.remove]⟩
        · exact (if_neg (fun hc => heff hc.1)).symm
        · intro hg
          exact absurd hg.1 heff
    · rw [if_neg href]
      refine ⟨rfl, rfl, ?_, ?_, ?_, ?_, ?_⟩
      · intro hos
        rw [hos]
        refine ⟨[Ev.transportDelete r.path], [], rfl, ?_⟩
        intro ev2 hev pg
        simp only [List.mem_singleton] at hev
        rw [hev]
        intro hcon
        exact Ev.noConfusion hcon
      · intro hpos
        exact absurd hpos hbr
      · intro _
        exact ⟨rfl, fun hrt => absurd hrt href⟩
      · exact (if_neg (fun hc =>
          hc.2.1.elim (fun hl => hbr hl.1) (fun hr => href hr.2))).symm
      · intro hg
        exact hg.2.1.elim (fun hl => absurd hl.1 hbr) (fun hr => absurd hr.2 href)

section NumberLemmas

theorem natDigitsAux_eq : ∀ fuel n : Nat, n ≤ fuel → natDigitsAux fuel n = Nat.digits 10 n := by
  intro fuel
  induction fuel with
  | zero =>
    intro n h
    interval_cases n
    simp [natDigitsAux]
  | succ fuel ih =>
    intro n h
    match n with
    | 0 => simp [natDigitsAux]
    | m + 1 =>
      have hlt : (m + 1) / 10 ≤ fuel := by
        have := Nat.div_lt_self (Nat.succ_pos m) (by norm_num : 1 < 10)
        omega
      rw [natDigitsAux, ih _ hlt, Nat.digits_def' (by norm_num : 1 < 10) (Nat.succ_pos m)]
      omega

theorem natDigits10_eq (n : Nat) : natDigits10 n = Nat.digits 10 n :=
  natDigitsAux_eq n n le_rfl

end NumberLemmas

/-- Scenario for claim C3: configured endpoint and transport, one item on
page 2, onSuccess configured, config-only call shape. -/
def c3State : ListingState :=
  { initialState with
    axiosConfigured := true
    apiPath := some "/api/items"
    data := [[("id", IVal.pv (.num 1))]]
    currentPage := 2
    total := 5 }

def c3Cfg : DeleteCfg := ⟨none, none, true, false⟩

theorem claim3_witness :
    (Listing.delete c3State (.cfgOnly (.num 1) c3Cfg) .success).thrown = none
    ∧ (Listing.delete c3State (.cfgOnly (.num 1) c3Cfg) .success).state.total = 4
    ∧ (Listing.delete c3State (.cfgOnly (.num 1) c3Cfg) .success).state.currentPage = 1
    ∧ Ev.fetchCall 1 ∈ (Listing.delete c3State (.cfgOnly (.num 1) c3Cfg) .success).events
    ∧ ∃ pre post,
        (Listing.delete c3State (.cfgOnly (.num 1) c3Cfg) .success).events
          = pre ++ Ev.onSuccessCall (.num 1) :: post
        ∧ ∀ ev2 ∈ pre, ∀ pg, ev2 ≠ Ev.fetchCall pg := by
  have h := claim3_delete_success_amended c3State (.cfgOnly (.num 1) c3Cfg)
    ⟨"/api/items/1", .num 1, "id", true, true, false⟩ rfl rfl
  have hbr : (Listing.remove c3State (PVal.num 1) "id").data = [] ∧ c3State.currentPage > 1 :=
    ⟨rfl, by decide⟩
  have h5 := h.2.2.2.1 hbr
  exact ⟨h.2.2.2.2.2.1.trans (by rfl), h.2.1.trans (by decide), h5.1.trans (by decide),
    h5.2 (Or.inl (by decide)), h.2.2.1 rfl⟩

/-- Scenario for the counterexample to claim C3 as stated: last item on
page 2 deleted successfully, but neither an endpoint nor a router is
configured. -/
def c3CexState : ListingState :=
  { initialState with
    axiosConfigured := true
    data := [[("id", IVal.pv (.num 1))]]
    currentPage := 2
    total := 1 }

/-- Counterexample to claim C3 as stated: the delete succeeds, the page
became empty above page one, the controller navigates to page 1, but the
observable calls are the transport DELETE alone: no fetch of the new page
is triggered, because no endpoint and no router are configured, while the
claim promises the navigation triggers a fetch of that page. -/
theorem claim3_counterexample :
    (Listing.delete c3CexState (.pathId "/api/items" (some (.num 1)) none) .success).thrown
      = none
    ∧ (Listing.delete c3CexState (.pathId "/api/items" (some (.num 1)) none) .success).state.currentPage
      = 1
    ∧ (Listing.delete c3CexState (.pathId "/api/items" (some (.num 1)) none) .success).state.data
      = []
    ∧ (Listing.delete c3CexState (.pathId "/api/items" (some (.num 1)) none) .success).events
      = [Ev.transportDelete "/api/items"] := by
  exact ⟨rfl, rfl, rfl, rfl⟩

/-- Claim C10: reset empties the items, clears the error, resets the page
to 1, perPage to 15, total to 0, the legacy filterValues to empty and
activeFilters to empty, and clears both loading flags, while leaving
everything else unchanged: the canonical filters map, filterDefaults,
filterVisibility, hasLoadedOnce, the whole configuration, the legacy
attribute cells, the transient UI flags and the panel state. -/
theorem claim10_reset_frame (st : ListingState) :
    (Listing.reset st).data = []
    ∧ (Listing.reset st).error = none
    ∧ (Listing.reset st).currentPage = 1
    ∧ (Listing.reset st).perPage = 15
    ∧ (Listing.reset st).total = 0
    ∧ (Listing.reset st).filterValues = []
    ∧ (Listing.reset st).activeFilters = []
    ∧ (Listing.reset st).isLoading = false
    ∧ (Listing.reset st).isUpdating = false
    ∧ (Listing.reset st).filters = st.filters
    ∧ (Listing.reset st).filterDefaults = st.filterDefaults
    ∧ (Listing.reset st).filterVisibility = st.filterVisibility
    ∧ (Listing.reset st).hasLoadedOnce = st.hasLoadedOnce
    ∧ (Listing.reset st).apiPath = st.apiPath
    ∧ (Listing.reset st).axiosConfigured = st.axiosConfigured
    ∧ (Listing.reset st).hasRouter = st.hasRouter
    ∧ (Listing.reset st).routerQuery = st.routerQuery
    ∧ (Listing.reset st).errorHandler = st.errorHandler
    ∧ (Listing.reset st).hasQueryBuilder = st.hasQueryBuilder
    ∧ (Listing.reset st).filterAttributes = st.filterAttributes
    ∧ (Listing.reset st).isFiltering = st.isFiltering
    ∧ (Listing.reset st).isResetting = st.isResetting
    ∧ (Listing.reset st).removingFilterKey = st.removingFilterKey
    ∧ (Listing.reset st).panelOpen = st.panelOpen := by
  exact ⟨rfl, rfl, rfl, rfl, rfl, rfl, rfl, rfl, rfl, rfl, rfl, rfl, rfl, rfl, rfl, rfl,
    rfl, rfl, rfl, rfl, rfl, rfl, rfl, rfl⟩

section UrlLemmas

theorem charOfNat_toNat (c : Char) (h : c.toNat < 128) : Char.ofNat c.toNat = c := by
  have hv : c.toNat.isValidChar := by
    left
    omega
  unfold Char.ofNat
  rw [dif_pos hv]
  apply Char.ext
  simp only [Char.ofNatAux, Char.toNat, UInt32.ofNat']
  apply UInt32.ext
  simp [UInt32.toNat, BitVec.ofNatLt]

theorem hexVal_hexDigitChar (d : Nat) (h : d < 16) :
    Listing.hexVal (Listing.hexDigitChar d) = some d := by
  interval_cases d <;> decide

theorem hexDigitChar_ne (d : Nat) (h : d < 16) :
    ¬ Listing.hexDigitChar d = '&' ∧ ¬ Listing.hexDigitChar d = '=' := by
  interval_cases d <;> exact ⟨by decide, by decide⟩

theorem percentDecode_cons_lit (c : Char) (rest : List Char)
    (h1 : ¬ c = '%') (h2 : ¬ c = '+') :
    Listing.percentDecode (c :: rest) = c :: Listing.percentDecode rest := by
  rw [Listing.percentDecode.eq_def]
  simp only []
  rw [if_neg h1, if_neg h2]

theorem percentDecode_hex (a b : Char) (rest2 : List Char) (x y : Nat)
    (ha : Listing.hexVal a = some x) (hb : Listing.hexVal b = some y) :
    Listing.percentDecode ('%' :: a :: b :: rest2)
      = Char.ofNat (16 * x + y) :: Listing.percentDecode rest2 := by
  rw [Listing.percentDecode.eq_def]
  simp only []
  rw [if_pos trivial]
  rw [ha, hb]

theorem percentDecode_encode (l : List Char) (h : ∀ c ∈ l, c.toNat < 128) :
    Listing.percentDecode (Listing.percentEncode l) = l := by
  induction l with
  | nil => rfl
  | cons c l ih =>
    have hc : c.toNat < 128 := h c (List.mem_cons_self c l)
    have hrest := ih (fun x hx => h x (List.mem_cons_of_mem c hx))
    rw [Listing.percentEncode, List.map_cons, List.flatten_cons]
    by_cases hu : Listing.isUnreservedChar c = true
    · rw [Listing.percentEncodeChar, if_pos hu]
      have h1 : ¬ c = '%' := by
        intro hcc
        subst hcc
        exact absurd hu (by decide)
      have h2 : ¬ c = '+' := by
        intro hcc
        subst hcc
        exact absurd hu (by decide)
      rw [List.singleton_append, percentDecode_cons_lit c _ h1 h2, ← Listing.percentEncode, hrest]
    · rw [Listing.percentEncodeChar, if_neg hu]
      have hx : c.toNat / 16 < 16 := by omega
      have hy : c.toNat % 16 < 16 := by omega
      rw [List.cons_append, List.cons_append, List.cons_append, List.nil_append]
      rw [percentDecode_hex _ _ _ _ _ (hexVal_hexDigitChar _ hx) (hexVal_hexDigitChar _ hy)]
      rw [← Listing.percentEncode, hrest, Nat.div_add_mod, charOfNat_toNat c hc]

theorem percentEncode_no_sep (l : List Char) (h : ∀ c ∈ l, c.toNat < 128) :
    ∀ x ∈ Listing.percentEncode l, ¬ x = '&' ∧ ¬ x = '=' := by
  intro x hx
  rw [Listing.percentEncode] at hx
  obtain ⟨li, hli, hxin⟩ := List.mem_flatten.mp hx
  obtain ⟨c, hc, rfl⟩ := List.mem_map.mp hli
  rw [Listing.percentEncodeChar] at hxin
  by_cases hu : Listing.isUnreservedChar c = true
  · rw [if_pos hu] at hxin
    simp only [List.mem_singleton] at hxin
    subst hxin
    constructor
    · intro hcc
      subst hcc
      exact absurd hu (by decide)
    · intro hcc
      subst hcc
      exact absurd hu (by decide)
  · rw [if_neg hu] at hxin
    have hca : c.toNat < 128 := h c hc
    have hd1 : c.toNat / 16 < 16 := by omega
    have hd2 : c.toNat % 16 < 16 := by omega
    simp only [List.mem_cons, List.mem_singleton, List.not_mem_nil] at hxin
    rcases hxin with rfl | rfl | rfl | hfalse
    · exact ⟨by decide, by decide⟩
    · exact hexDigitChar_ne _ hd1
    · exact hexDigitChar_ne _ hd2
    · exact absurd hfalse (by simp)

end UrlLemmas

section SplitJoinLemmas

theorem stringMk_data (s : String) : String.mk s.data = s := by
  cases s
  rfl

theorem splitOnChar_ne_nil (sep : Char) (l : List Char) : Listing.splitOnChar sep l ≠ [] := by
  induction l with
  | nil => simp [Listing.splitOnChar]
  | cons c l ih =>
    rw [Listing.splitOnChar]
    cases h : Listing.splitOnChar sep l with
    | nil => simp
    | cons seg segs =>
      by_cases hc : c = sep <;> simp [hc]

theorem splitOnChar_no_sep (sep : Char) (l : List Char) (h : sep ∉ l) :
    Listing.splitOnChar sep l = [l] := by
  induction l with
  | nil => rfl
  | cons c l ih =>
    have hc : ¬ c = sep := fun he => h (by rw [he]; exact List.mem_cons_self _ _)
    have hrec := ih (fun hm => h (List.mem_cons_of_mem c hm))
    rw [Listing.splitOnChar, hrec]
    simp only [if_neg hc]

theorem splitOnChar_append (sep : Char) (x r : List Char) (hx : sep ∉ x) :
    Listing.splitOnChar sep (x ++ sep :: r) = x :: Listing.splitOnChar sep r := by
  induction x with
  | nil =>
    rw [List.nil_append, Listing.splitOnChar]
    cases h : Listing.splitOnChar sep r with
    | nil => exact absurd h (splitOnChar_ne_nil sep r)
    | cons seg segs => simp
  | cons c x ih =>
    have hc : ¬ c = sep := fun he => hx (by rw [he]; exact List.mem_cons_self _ _)
    have hrec := ih (fun hm => hx (List.mem_cons_of_mem c hm))
    rw [List.cons_append, Listing.splitOnChar, hrec]
    simp only [if_neg hc]

theorem splitOnChar_joinChar (sep : Char) :
    ∀ segs : List (List Char), segs ≠ [] → (∀ seg ∈ segs, sep ∉ seg) →
      Listing.splitOnChar sep (Listing.joinChar sep segs) = segs := by
  intro segs
  induction segs with
  | nil => intro h; exact absurd rfl h
  | cons x xs ih =>
    intro _ hall
    cases xs with
    | nil => exact splitOnChar_no_sep sep x (hall x (List.mem_cons_self _ _))
    | cons y ys =>
      have hj : Listing.joinChar sep (x :: y :: ys) = x ++ sep :: Listing.joinChar sep (y :: ys) := rfl
      rw [hj, splitOnChar_append sep x _ (hall x (List.mem_cons_self _ _))]
      rw [ih (by simp) (fun seg hs => hall seg (List.mem_cons_of_mem x hs))]

theorem takeWhile_encoded_segment (K V : List Char) (hK : '=' ∉ K) :
    (K ++ '=' :: V).takeWhile (fun c => c != '=') = K
    ∧ (K ++ '=' :: V).dropWhile (fun c => c != '=') = '=' :: V := by
  induction K with
  | nil =>
    constructor
    · simp [List.takeWhile_cons]
    · simp [List.dropWhile_cons]
  | cons c K ih =>
    have hc : ¬ c = '=' := fun he => hK (by rw [he]; exact List.mem_cons_self _ _)
    have hb : (c != '=') = true := by
      simp [bne, hc]
    have hrec := ih (fun hm => hK (List.mem_cons_of_mem c hm))
    constructor
    · rw [List.cons_append, List.takeWhile_cons, hb]
      simp [hrec.1]
    · rw [List.cons_append, List.dropWhile_cons, hb]
      simp [hrec.2]

theorem foldl_objSet_numCoerce (es : List (String × String)) :
    ∀ acc : List (String × PVal), (assocKeys acc ++ es.map Prod.fst).Nodup →
      es.foldl (fun acc2 kv => objSet acc2 kv.1 (numCoerceStr kv.2)) acc
        = acc ++ es.map (fun kv => (kv.1, numCoerceStr kv.2)) := by
  induction es with
  | nil =>
    intro acc _
    simp
  | cons kv es ih =>
    intro acc h
    obtain ⟨k, v⟩ := kv
    have hparts := List.nodup_append.mp (by simpa using h)
    have hk : k ∉ assocKeys acc := by
      intro hmem
      exact hparts.2.2 hmem (List.mem_cons_self _ _)
    have hlk : lookupAssoc acc k = none := lookupAssoc_eq_none hk
    rw [List.foldl_cons]
    have hobj : objSet acc k (numCoerceStr v) = acc ++ [(k, numCoerceStr v)] := by
      rw [objSet, hlk]
    rw [hobj, ih]
    · simp
    · have hkeys : assocKeys (acc ++ [(k, numCoerceStr v)]) = assocKeys acc ++ [k] := by
        simp [assocKeys]
      rw [hkeys, List.append_assoc, List.singleton_append]
      simpa using h

end SplitJoinLemmas

section JsNumberLemmas

theorem digitVal_digitChar10 (d : Nat) (h : d < 10) : digitVal (digitChar10 d) = some d := by
  interval_cases d <;> decide

theorem digitChar10_not_sign (d : Nat) (h : d < 10) :
    ¬ digitChar10 d = '-' ∧ ¬ digitChar10 d = '+' := by
  interval_cases d <;> exact ⟨by decide, by decide⟩

theorem digitChar10_ascii (d : Nat) (h : d < 10) : (digitChar10 d).toNat < 128 := by
  interval_cases d <;> decide

theorem mapM_digitVal (ds : List Nat) (h : ∀ d ∈ ds, d < 10) :
    (ds.map digitChar10).mapM digitVal = some ds := by
  induction ds with
  | nil => rfl
  | cons d ds ih =>
    rw [List.map_cons, List.mapM_cons]
    rw [digitVal_digitChar10 d (h d (List.mem_cons_self d ds)),
      ih (fun x hx => h x (List.mem_cons_of_mem d hx))]
    rfl

theorem natDigits10_lt (n : Nat) : ∀ d ∈ natDigits10 n, d < 10 := by
  rw [natDigits10_eq]
  exact fun d hd => Nat.digits_lt_base (by norm_num) hd

theorem natDigits10_ne_nil (n : Nat) (h : n ≠ 0) : natDigits10 n ≠ [] := by
  rw [natDigits10_eq]
  exact Nat.digits_ne_nil_iff_ne_zero.mpr h

theorem parseNatDigits_natToChars (m : Nat) : parseNatDigits (natToChars m) = some m := by
  by_cases h0 : m = 0
  · subst h0
    rfl
  · rw [natToChars, if_neg h0]
    have hnn : ((natDigits10 m).map digitChar10).reverse ≠ [] := by
      simp [natDigits10_ne_nil m h0]
    rw [parseNatDigits, if_neg hnn]
    rw [← List.map_reverse]
    rw [mapM_digitVal _ (fun d hd => natDigits10_lt m d (List.mem_reverse.mp hd))]
    simp only [Option.map_some']
    rw [List.reverse_reverse, natDigits10_eq, Nat.ofDigits_digits]

theorem natToChars_shape (m : Nat) :
    ∀ c ∈ natToChars m, ∃ d, d < 10 ∧ c = digitChar10 d := by
  intro c hc
  rw [natToChars] at hc
  by_cases h0 : m = 0
  · rw [if_pos h0] at hc
    simp only [List.mem_singleton] at hc
    exact ⟨0, by norm_num, by rw [hc]; rfl⟩
  · rw [if_neg h0] at hc
    rw [List.mem_reverse] at hc
    obtain ⟨d, hd, rfl⟩ := List.mem_map.mp hc
    exact ⟨d, natDigits10_lt m d hd, rfl⟩

theorem natToChars_ne_nil (m : Nat) : natToChars m ≠ [] := by
  rw [natToChars]
  by_cases h0 : m = 0
  · rw [if_pos h0]
    simp
  · rw [if_neg h0]
    simp [natDigits10_ne_nil m h0]

theorem intToChars_ascii (n : Int) : ∀ c ∈ intToChars n, c.toNat < 128 := by
  intro c hc
  rw [intToChars] at hc
  by_cases hneg : n < 0
  · rw [if_pos hneg] at hc
    rcases List.mem_cons.mp hc with rfl | hc2
    · decide
    · obtain ⟨d, hd, rfl⟩ := natToChars_shape _ c hc2
      exact digitChar10_ascii d hd
  · rw [if_neg hneg] at hc
    obtain ⟨d, hd, rfl⟩ := natToChars_shape _ c hc
    exact digitChar10_ascii d hd

theorem jsToNumber_intToChars (n : Int) : jsToNumber (String.mk (intToChars n)) = some n := by
  by_cases hneg : n < 0
  · rw [intToChars, if_pos hneg]
    rw [show jsToNumber (String.mk ('-' :: natToChars n.natAbs))
      = (parseNatDigits (natToChars n.natAbs)).map (fun m => -(m : Int)) from rfl]
    rw [parseNatDigits_natToChars]
    show some (-(n.natAbs : Int)) = some n
    congr 1
    omega
  · rw [intToChars, if_neg hneg]
    obtain ⟨c, rest, hl⟩ : ∃ c rest, natToChars n.toNat = c :: rest := by
      cases hone : natToChars n.toNat with
      | nil => exact absurd hone (natToChars_ne_nil n.toNat)
      | cons c rest => exact ⟨c, rest, rfl⟩
    obtain ⟨d, hd10, hcd⟩ := natToChars_shape n.toNat c (hl ▸ List.mem_cons_self c rest)
    have hsign := digitChar10_not_sign d hd10
    have h1 : ¬ c = '-' := by
      rw [hcd]
      exact hsign.1
    have h2 : ¬ c = '+' := by
      rw [hcd]
      exact hsign.2
    rw [hl]
    show (if c = '-' then (parseNatDigits rest).map (fun m => -(m : Int))
        else if c = '+' then (parseNatDigits rest).map (fun m => (m : Int))
        else (parseNatDigits (c :: rest)).map (fun m => (m : Int))) = some n
    rw [if_neg h1, if_neg h2, ← hl, parseNatDigits_natToChars]
    show some ((n.toNat : Int)) = some n
    congr 1
    omega

theorem numCoerceStr_jsString_num (n : Int) : numCoerceStr (jsString (.num n)) = .num n := by
  rw [jsString, numCoerceStr, jsToNumber_intToChars]

end JsNumberLemmas

section RoundTripLemmas

theorem Listing.allAscii_iff (l : List Char) : Listing.allAscii l = true ↔ ∀ c ∈ l, c.toNat < 128 := by
  simp [Listing.allAscii, List.all_eq_true]

theorem jsString_ascii {v : PVal} (hv : Listing.pvalAscii v = true) :
    ∀ c ∈ (jsString v).data, c.toNat < 128 := by
  cases v with
  | str s =>
    rw [Listing.pvalAscii] at hv
    exact (Listing.allAscii_iff _).mp hv
  | num n =>
    intro c hc
    exact intToChars_ascii n c hc

theorem parseQSEntries_encode (m : List (String × PVal))
    (hascii : ∀ kv ∈ m, Listing.allAscii kv.1.data = true ∧ Listing.pvalAscii kv.2 = true) :
    Listing.parseQSEntries (Listing.joinChar '&' (m.map (fun kv =>
        Listing.percentEncode kv.1.data ++ '=' :: Listing.percentEncode (jsString kv.2).data)))
      = m.map (fun kv => (kv.1, jsString kv.2)) := by
  cases hm : m with
  | nil => rfl
  | cons kv0 m0 =>
    rw [← hm]
    have hmne : m.map (fun kv =>
        Listing.percentEncode kv.1.data ++ '=' :: Listing.percentEncode (jsString kv.2).data) ≠ [] := by
      rw [hm]
      simp
    have hnosep : ∀ seg ∈ m.map (fun kv =>
        Listing.percentEncode kv.1.data ++ '=' :: Listing.percentEncode (jsString kv.2).data),
        '&' ∉ seg := by
      intro seg hs
      obtain ⟨kv, hkv, rfl⟩ := List.mem_map.mp hs
      intro hmem
      rcases List.mem_append.mp hmem with hk | hv
      · exact (percentEncode_no_sep _ ((Listing.allAscii_iff _).mp (hascii kv hkv).1) '&' hk).1 rfl
      · rcases List.mem_cons.mp hv with heq | hv2
        · exact absurd heq (by decide)
        · exact (percentEncode_no_sep _ (jsString_ascii (hascii kv hkv).2) '&' hv2).1 rfl
    rw [Listing.parseQSEntries, splitOnChar_joinChar '&' _ hmne hnosep]
    rw [List.filter_eq_self.mpr (by
      intro seg hs
      obtain ⟨kv, hkv, rfl⟩ := List.mem_map.mp hs
      simp)]
    rw [List.map_map]
    apply List.map_congr_left
    intro kv hkv
    have hkey := (Listing.allAscii_iff _).mp (hascii kv hkv).1
    have hval := jsString_ascii (hascii kv hkv).2
    have hKne : '=' ∉ Listing.percentEncode kv.1.data := by
      intro hmem
      exact (percentEncode_no_sep _ hkey '=' hmem).2 rfl
    have hsegsp := takeWhile_encoded_segment (Listing.percentEncode kv.1.data)
      (Listing.percentEncode (jsString kv.2).data) hKne
    simp only [Function.comp]
    rw [hsegsp.1, hsegsp.2]
    rw [List.drop_one, List.tail_cons]
    rw [percentDecode_encode _ hkey, percentDecode_encode _ hval]

/-- Claim C9: serializing the output of buildFilterParameters into a
?-prefixed query string (URLSearchParams-style percent-encoding, modelled
from the spec since the serialization lives in the router layer) and
parsing it back with normalizeParams reproduces the same key-value mapping,
where values that normalizeParams coerces to numbers are compared as
numbers: numeric values come back exactly, non-coercible strings come back
exactly, and a coercible string comes back as exactly the number it
coerces to. Quantified over mappings with JS-object-unique keys and ASCII
text, the range the single-byte percent-encoding model covers. -/
theorem claim9_roundtrip (st : ListingState)
    (hnd : (assocKeys (Listing.filterSource st)).Nodup)
    (hascii : ∀ kv ∈ Listing.buildFilterParameters st,
      Listing.allAscii kv.1.data = true ∧ Listing.pvalAscii kv.2 = true) :
    Listing.normalizeParams (some (.strArg
        (Listing.encodeQueryString (Listing.buildFilterParameters st))))
      = (Listing.buildFilterParameters st).map (fun kv => (kv.1, numCoerceStr (jsString kv.2)))
    ∧ (∀ kv ∈ Listing.buildFilterParameters st, ∀ n : Int, kv.2 = PVal.num n →
        numCoerceStr (jsString kv.2) = PVal.num n)
    ∧ (∀ kv ∈ Listing.buildFilterParameters st, ∀ s : String, kv.2 = PVal.str s →
        jsToNumber s = none → numCoerceStr (jsString kv.2) = PVal.str s)
    ∧ (∀ kv ∈ Listing.buildFilterParameters st, ∀ s : String, ∀ n : Int, kv.2 = PVal.str s →
        jsToNumber s = some n → numCoerceStr (jsString kv.2) = PVal.num n) := by
  have hkeysnd : ((Listing.buildFilterParameters st).map Prod.fst).Nodup :=
    List.Nodup.sublist (assocKeys_filterMapClean Listing.cleanValue (Listing.filterSource st)) hnd
  refine ⟨?_, ?_, ?_, ?_⟩
  · have h0 : Listing.normalizeParams (some (.strArg
        (Listing.encodeQueryString (Listing.buildFilterParameters st))))
        = Listing.parseQueryString (Listing.joinChar '&'
            ((Listing.buildFilterParameters st).map (fun kv =>
              Listing.percentEncode kv.1.data ++ '=' :: Listing.percentEncode (jsString kv.2).data))) := rfl
    rw [h0, Listing.parseQueryString, parseQSEntries_encode _ hascii]
    have hfkeys : ((Listing.buildFilterParameters st).map
        (fun kv => (kv.1, jsString kv.2))).map Prod.fst
        = (Listing.buildFilterParameters st).map Prod.fst := by
      rw [List.map_map]
      rfl
    rw [foldl_objSet_numCoerce _ [] (by
      rw [assocKeys]
      simp only [List.map_nil, List.nil_append]
      rw [hfkeys]
      exact hkeysnd)]
    rw [List.nil_append, List.map_map]
    rfl
  · intro kv _ n hv
    rw [hv]
    exact numCoerceStr_jsString_num n
  · intro kv _ s hv hnum
    rw [hv, jsString, numCoerceStr, hnum]
  · intro kv _ s n hv hnum
    rw [hv, jsString, numCoerceStr, hnum]

end RoundTripLemmas

/-- Canonical filter state instantiating claim C9: a padded plain string, a
number, and a numeric-looking string that Number() coerces. -/
def c9State : ListingState :=
  { initialState with
    filters := [("search", some (.str " a b ")), ("page_size", some (.num 25)),
                ("code", some (.str "007"))] }

theorem claim9_witness :
    Listing.normalizeParams (some (.strArg
        (Listing.encodeQueryString (Listing.buildFilterParameters c9State))))
      = [("search", .str "a b"), ("page_size", .num 25), ("code", .num 7)] := by
  have h := claim9_roundtrip c9State (by decide) (by decide)
  rw [h.1]
  decide
